import Mathlib

/-!
Verification of the ArxLibertatis Blender addon codecs against their
specification.  The definitions below are shallow embeddings of the Python
sources (dataFts.py, dataTea.py, arx_io_model.py, arx_ui_area.py):
machine integers become Nat/Int, byte strings become List Nat, floats that
carry arithmetic meaning become Rat, and fallible operations return Except.
-/

namespace ArxSpec

/-! ### PKWare encoder: FtsSerializer._PKWareEncoder (dataFts.py lines 417-551) -/

/-- Embeds `_reverse_bits(value, num_bits)` (dataFts.py line 489): reverse the
low `numBits` bits of `value`. -/
def reverseBits (value numBits : ℕ) : ℕ :=
  (List.range numBits).foldl
    (fun result i =>
      if value &&& (1 <<< i) ≠ 0 then result ||| (1 <<< (numBits - 1 - i)) else result)
    0

/-- Embeds the constant `self.BASE` (dataFts.py line 446). -/
def pkBASE : List ℕ := [3, 2, 4, 5, 6, 7, 8, 9, 10, 12, 16, 24, 40, 72, 136, 264]

/-- Embeds the constant `self.EXTRA` (dataFts.py line 447). -/
def pkEXTRA : List ℕ := [0, 0, 0, 0, 0, 0, 0, 0, 1, 2, 3, 4, 5, 6, 7, 8]

/-- Embeds the constant `self.LENLEN` (dataFts.py line 448). -/
def pkLENLEN : List ℕ := [2, 35, 36, 53, 38, 23]

/-- Embeds `self.MAX_LENGTH_SYMBOLS = len(self.BASE)` (dataFts.py line 451). -/
def maxLengthSymbols : ℕ := pkBASE.length

/-- Embeds `self.END_SYMBOL = self.MAX_LENGTH_SYMBOLS - 1` (dataFts.py line 452). -/
def endSymbol : ℕ := maxLengthSymbols - 1

/-- Embeds `self.END_LENGTH = BASE[END_SYMBOL] + ((1 << EXTRA[END_SYMBOL]) - 1)`
(dataFts.py line 453). -/
def endLength : ℕ := pkBASE.getD endSymbol 0 + ((1 <<< pkEXTRA.getD endSymbol 0) - 1)

/-- Embeds the `code_lengths` list computed in `_build_length_table`
(dataFts.py lines 463-471): decode the packed lenlen bytes, then pad with
zeros up to 16 entries. -/
def codeLengths : List ℕ :=
  let base := pkLENLEN.flatMap
    (fun packed => List.replicate ((packed >>> 4) + 1) ((packed &&& 15) + 2))
  base ++ List.replicate (maxLengthSymbols - base.length) 0

/-- Embeds the canonical-code assignment loop of `_build_length_table`
(dataFts.py lines 475-487).  State is `(codes, code)`; for each bit length the
inner loop assigns `reverseBits code bitLength` to every symbol of that
length, then the running code is shifted left. -/
def buildLengthTable : List (ℕ × ℕ) :=
  let maxCodeLength := codeLengths.foldl max 0
  let final := (List.range maxCodeLength).foldl
    (fun (st : List ℕ × ℕ) bl =>
      let bitLength := bl + 1
      let st := (List.range maxLengthSymbols).foldl
        (fun (st : List ℕ × ℕ) symbol =>
          if codeLengths.getD symbol 0 = bitLength then
            (st.1.set symbol (reverseBits st.2 bitLength), st.2 + 1)
          else st)
        st
      (st.1, st.2 <<< 1))
    (List.replicate maxLengthSymbols 0, 0)
  (List.range maxLengthSymbols).map (fun i => (final.1.getD i 0, codeLengths.getD i 0))

/-- Embeds `write_header` (dataFts.py lines 497-505): append the 8 bits of the
literal flag, then the 8 bits of the dictionary size, LSB first. -/
def writeHeaderBits (bits : List ℕ) (litFlag dictSize : ℕ) : List ℕ :=
  let bits := bits ++ (List.range 8).map (fun i => (litFlag >>> i) &&& 1)
  bits ++ (List.range 8).map (fun i => (dictSize >>> i) &&& 1)

/-- Embeds `write_literal` (dataFts.py lines 507-515): a `0` marker bit, then
the 8 bits of the byte, LSB first. -/
def writeLiteralBits (bits : List ℕ) (byteVal : ℕ) : List ℕ :=
  (bits ++ [0]) ++ (List.range 8).map (fun i => (byteVal >>> i) &&& 1)

/-- Embeds `write_end_of_stream` (dataFts.py lines 517-526): a `1` marker bit,
then seven `0` bits, then eight `1` bits. -/
def writeEosBits (bits : List ℕ) : List ℕ :=
  ((bits ++ [1]) ++ List.replicate 7 0) ++ List.replicate 8 1

/-- Embeds the byte-packing step of `get_bytes` (dataFts.py lines 528-551):
OR together `1 <<< j` for every set bit of the chunk. -/
def packChunk (chunk : List ℕ) : ℕ :=
  (List.range chunk.length).foldl
    (fun acc j => if chunk.getD j 0 ≠ 0 then acc ||| (1 <<< j) else acc) 0

/-- Embeds `get_bytes` (dataFts.py lines 528-551): split the bit list into
8-bit chunks (the final chunk may be shorter) and pack each LSB-first. -/
def getBytes (bits : List ℕ) : List ℕ :=
  if h : bits = [] then []
  else packChunk (bits.take 8) :: getBytes (bits.drop 8)
termination_by bits.length
decreasing_by
  simp only [List.length_drop]
  have : bits.length ≠ 0 := fun hlen => h (List.eq_nil_of_length_eq_zero hlen)
  omega

/-- Embeds the bitstream construction of `_encode_pkware` (dataFts.py lines
417-436): header with `lit_flag=0, dict_size=6`, one literal per input byte,
then the end-of-stream marker. -/
def pkwareBits (data : List ℕ) : List ℕ :=
  writeEosBits (data.foldl writeLiteralBits (writeHeaderBits [] 0 6))

/-- Embeds `_encode_pkware` (dataFts.py lines 417-436) end to end: the packed
output bytes. -/
def encodePkware (data : List ℕ) : List ℕ :=
  getBytes (pkwareBits data)

/-- Bit `j` of a byte sequence, LSB-first within each byte: how the paired
decoder consumes the stream. -/
def bitAt (bytes : List ℕ) (j : ℕ) : ℕ :=
  (bytes.getD (j / 8) 0 >>> (j % 8)) &&& 1

/-- Bits appended for one uncoded literal: the zero marker followed by the
eight data bits, LSB first. -/
def literalBits (b : ℕ) : List ℕ :=
  0 :: (List.range 8).map (fun i => (b >>> i) &&& 1)

lemma writeLiteralBits_eq (bits : List ℕ) (b : ℕ) :
    writeLiteralBits bits b = bits ++ literalBits b := by
  simp [writeLiteralBits, literalBits]

lemma foldl_writeLiteralBits (l : List ℕ) (acc : List ℕ) :
    l.foldl writeLiteralBits acc = acc ++ l.flatMap literalBits := by
  induction l generalizing acc with
  | nil => simp
  | cons b l ih =>
      simp only [List.foldl_cons, ih, writeLiteralBits_eq, List.flatMap_cons,
        List.append_assoc]

lemma pkwareBits_eq (data : List ℕ) :
    pkwareBits data =
      [0, 0, 0, 0, 0, 0, 0, 0, 0, 1, 1, 0, 0, 0, 0, 0]
        ++ data.flatMap literalBits
        ++ ([1] ++ List.replicate 7 0 ++ List.replicate 8 1) := by
  have hhd : writeHeaderBits [] 0 6 = [0, 0, 0, 0, 0, 0, 0, 0, 0, 1, 1, 0, 0, 0, 0, 0] := by
    decide
  unfold pkwareBits writeEosBits
  rw [foldl_writeLiteralBits, hhd]
  simp [List.append_assoc]

lemma length_literalBits (b : ℕ) : (literalBits b).length = 9 := by
  simp [literalBits]

lemma length_flatMap_literalBits (l : List ℕ) :
    (l.flatMap literalBits).length = 9 * l.length := by
  induction l with
  | nil => simp
  | cons b l ih => simp [List.flatMap_cons, ih, length_literalBits]; ring

lemma pkwareBits_length (data : List ℕ) :
    (pkwareBits data).length = 9 * data.length + 32 := by
  rw [pkwareBits_eq, List.length_append, List.length_append, length_flatMap_literalBits]
  simp only [List.length_cons, List.length_nil, List.length_append, List.length_replicate]
  omega

lemma getBytes_length (bits : List ℕ) :
    (getBytes bits).length = (bits.length + 7) / 8 := by
  induction bits using getBytes.induct with
  | case1 => rw [getBytes]; simp
  | case2 bits h ih =>
      rw [getBytes]
      rw [dif_neg h]
      have hne : bits.length ≠ 0 := fun hlen => h (List.eq_nil_of_length_eq_zero hlen)
      simp only [List.length_cons, List.length_drop] at ih ⊢
      omega

lemma packChunk_nil : packChunk [] = 0 := rfl

lemma getBytes_getD (bits : List ℕ) (q : ℕ) :
    (getBytes bits).getD q 0 = packChunk ((bits.drop (8 * q)).take 8) := by
  induction bits using getBytes.induct generalizing q with
  | case1 => simp [getBytes, packChunk_nil]
  | case2 bits h ih =>
      rw [getBytes, dif_neg h]
      cases q with
      | zero => simp
      | succ q =>
          rw [List.getD_cons_succ, ih q, List.drop_drop]
          have harith : 8 + 8 * q = 8 * (q + 1) := by ring
          rw [harith]

lemma testBit_packFold (chunk : List ℕ) (l : List ℕ) (acc : ℕ) (j : ℕ) :
    Nat.testBit
        (l.foldl (fun acc i => if chunk.getD i 0 ≠ 0 then acc ||| (1 <<< i) else acc) acc) j
        = true
      ↔ Nat.testBit acc j = true ∨ (j ∈ l ∧ chunk.getD j 0 ≠ 0) := by
  induction l generalizing acc with
  | nil => simp
  | cons i l ih =>
      simp only [List.foldl_cons, List.mem_cons]
      rw [ih]
      by_cases hc : chunk.getD i 0 ≠ 0
      · rw [if_pos hc, Nat.testBit_or]
        by_cases hij : j = i
        · subst hij
          rw [Nat.one_shiftLeft, Nat.testBit_two_pow_self, Bool.or_true]
          constructor
          · intro _
            exact Or.inr ⟨Or.inl rfl, hc⟩
          · intro _
            exact Or.inl rfl
        · have hzero : Nat.testBit (1 <<< i) j = false := by
            rw [Nat.one_shiftLeft]
            exact Nat.testBit_two_pow_of_ne (fun hh => hij hh.symm)
          rw [hzero, Bool.or_false]
          constructor
          · rintro (hb | hmem)
            · exact Or.inl hb
            · exact Or.inr ⟨Or.inr hmem.1, hmem.2⟩
          · rintro (hb | ⟨hji | hmem, hcj⟩)
            · exact Or.inl hb
            · exact absurd hji hij
            · exact Or.inr ⟨hmem, hcj⟩
      · rw [if_neg hc]
        push_neg at hc
        constructor
        · rintro (hb | hmem)
          · exact Or.inl hb
          · exact Or.inr ⟨Or.inr hmem.1, hmem.2⟩
        · rintro (hb | ⟨hji | hmem, hcj⟩)
          · exact Or.inl hb
          · subst hji
            exact absurd hc hcj
          · exact Or.inr ⟨hmem, hcj⟩

lemma packChunk_bit (chunk : List ℕ) (j : ℕ) :
    (packChunk chunk >>> j) &&& 1 = if chunk.getD j 0 ≠ 0 then 1 else 0 := by
  have h : Nat.testBit (packChunk chunk) j = true ↔ j < chunk.length ∧ chunk.getD j 0 ≠ 0 := by
    have h2 := testBit_packFold chunk (List.range chunk.length) 0 j
    simp only [Nat.zero_testBit, Bool.false_eq_true, false_or, List.mem_range] at h2
    exact h2
  have hval : (packChunk chunk >>> j) &&& 1 = if Nat.testBit (packChunk chunk) j then 1 else 0 := by
    rw [Nat.and_one_is_mod, Nat.shiftRight_eq_div_pow, Nat.testBit_to_div_mod]
    rcases Nat.mod_two_eq_zero_or_one (packChunk chunk / 2 ^ j) with h0 | h1
    · rw [h0]
      decide
    · rw [h1]
      decide
  rw [hval]
  by_cases hj : chunk.getD j 0 ≠ 0
  · rw [if_pos hj]
    have hjl : j < chunk.length := by
      by_contra hge
      exact hj (List.getD_eq_default _ _ (le_of_not_lt hge))
    rw [if_pos (h.mpr ⟨hjl, hj⟩)]
  · rw [if_neg hj]
    rw [if_neg]
    intro hbit
    exact hj (h.mp hbit).2

lemma bitAt_getBytes (bits : List ℕ) (j : ℕ) :
    bitAt (getBytes bits) j = if bits.getD j 0 ≠ 0 then 1 else 0 := by
  unfold bitAt
  rw [getBytes_getD bits (j / 8), packChunk_bit]
  have hchunk : ((bits.drop (8 * (j / 8))).take 8).getD (j % 8) 0 = bits.getD j 0 := by
    rw [List.getD_eq_getElem?_getD, List.getD_eq_getElem?_getD]
    rw [List.getElem?_take, if_pos (Nat.mod_lt j (by norm_num))]
    rw [List.getElem?_drop]
    have harith : 8 * (j / 8) + j % 8 = j := Nat.div_add_mod j 8
    rw [harith]
  rw [hchunk]

lemma mem_pkwareBits_le_one (data : List ℕ) : ∀ b ∈ pkwareBits data, b ≤ 1 := by
  rw [pkwareBits_eq]
  intro b hb
  simp only [List.append_assoc, List.mem_append, List.mem_flatMap] at hb
  rcases hb with hb | ⟨x, _, hb⟩ | hb
  · fin_cases hb <;> norm_num
  · simp only [literalBits, List.mem_cons, List.mem_map] at hb
    rcases hb with hb | ⟨i, _, hb⟩
    · omega
    · rw [← hb]
      exact Nat.and_le_right
  · simp only [List.mem_append, List.mem_cons, List.mem_replicate,
      List.not_mem_nil, or_false] at hb
    omega

lemma getD_of_le_one (l : List ℕ) (hl : ∀ b ∈ l, b ≤ 1) (j : ℕ) :
    (if l.getD j 0 ≠ 0 then 1 else 0) = l.getD j 0 := by
  by_cases hj : j < l.length
  · have hmem : l.getD j 0 ∈ l := by
      rw [List.getD_eq_getElem l 0 hj]
      exact List.getElem_mem hj
    have := hl _ hmem
    split <;> omega
  · rw [List.getD_eq_default _ _ (le_of_not_lt hj)]
    simp

/-- C1: `_encode_pkware` is total over all byte sequences and its bitstream
is exactly the 16 plain header bits (literal mode flag 0, then the window
selector constant 6, each LSB first), followed for each input byte by a `0`
marker bit and the 8 data bits of that byte in natural LSB-first order,
followed only by the fixed end-of-stream pattern; every bit lands at its
position in the output bytes, and the output length in bytes is exactly
`ceil((9*len(data) + 32)/8)`, so for empty input only header plus
end-of-stream marker is emitted. -/
theorem pkware_compress_layout_c1 (data : List ℕ) :
    pkwareBits data =
        [0, 0, 0, 0, 0, 0, 0, 0, 0, 1, 1, 0, 0, 0, 0, 0]
          ++ data.flatMap (fun b => 0 :: (List.range 8).map (fun i => (b >>> i) &&& 1))
          ++ ([1] ++ List.replicate 7 0 ++ List.replicate 8 1)
      ∧ (pkwareBits data).length = 9 * data.length + 32
      ∧ (∀ j, bitAt (encodePkware data) j = (pkwareBits data).getD j 0)
      ∧ (encodePkware data).length = (9 * data.length + 32 + 7) / 8 := by
  refine ⟨pkwareBits_eq data, pkwareBits_length data, ?_, ?_⟩
  · intro j
    unfold encodePkware
    rw [bitAt_getBytes]
    exact getD_of_le_one _ (mem_pkwareBits_le_one data) j
  · unfold encodePkware
    rw [getBytes_length, pkwareBits_length]

/-- C2 counterexample: the end-of-stream bits that the encoder emits are the
fixed 16-bit pattern `1, 0^7, 1^8`; the length table built by
`_build_length_table` assigns symbol 15 the 9-bit code 508, so the emitted
pattern cannot be the marker bit followed by that code and 8 all-one extra
bits, which would span 18 bits. -/
theorem pkware_eos_c2_counterexample :
    buildLengthTable.getD 15 (0, 0) = (508, 9)
      ∧ writeEosBits [] = [1, 0, 0, 0, 0, 0, 0, 0, 1, 1, 1, 1, 1, 1, 1, 1]
      ∧ (writeEosBits []).length = 16
      ∧ 1 + (buildLengthTable.getD 15 (0, 0)).2 + 8 = 18
      ∧ (16 : ℕ) ≠ 18 := by
  refine ⟨by decide, by decide, by decide, by decide, by decide⟩

/-- C2 amended: after the final literal the encoder always emits exactly the
fixed 16-bit trailer `1, 0^7, 1^8`; the end-of-stream length constant
derived from `BASE` and `EXTRA` is 519, but the trailer is hardcoded and is
not the code that `_build_length_table` assigns to the last length symbol,
which is the 9-bit code `(508, 9)`. -/
theorem pkware_eos_c2_amended (data : List ℕ) :
    (pkwareBits data).drop (16 + 9 * data.length)
        = [1, 0, 0, 0, 0, 0, 0, 0, 1, 1, 1, 1, 1, 1, 1, 1]
      ∧ endLength = 519
      ∧ buildLengthTable.getD 15 (0, 0) = (508, 9) := by
  refine ⟨?_, by decide, by decide⟩
  rw [pkwareBits_eq]
  have hlen : ([0, 0, 0, 0, 0, 0, 0, 0, 0, 1, 1, 0, 0, 0, 0, 0]
      ++ data.flatMap literalBits).length = 16 + 9 * data.length := by
    rw [List.length_append, length_flatMap_literalBits]
    simp only [List.length_cons, List.length_nil]
  rw [← hlen, List.drop_left]
  decide

/-! ### Model decode: ArxObjectManager (arx_io_model.py) -/

/-- Embeds the fields of `FtlGroup` that `loadFile_data`, `getFatherIndex`
and the spec parent-inference rule touch (arx_io_model.py). -/
structure FtlGroup where
  origin : ℤ
  indices : List ℤ
  parentIndex : ℤ
  deriving DecidableEq, Repr

/-- Default group used for out-of-range list access in the model; the Python
code only ever indexes in range. -/
def dfltGroup : FtlGroup := ⟨0, [], -1⟩

/-- Embeds `getFatherIndex(groups, index)` (arx_io_model.py lines 247-248):
it returns the `parentIndex` already stored on the indexed group. -/
def getFatherIndex (groups : List FtlGroup) (index : ℕ) : ℤ :=
  (groups.getD index dfltGroup).parentIndex

/-- Embeds the parent-assignment loop of `loadFile_data` (arx_io_model.py
lines 241-244): for each group index in order, the parent index is set to
`getFatherIndex` evaluated on the current group list. -/
def loadFileParents (groups : List FtlGroup) : List FtlGroup :=
  (List.range groups.length).foldl
    (fun gs i => gs.set i { gs.getD i dfltGroup with parentIndex := getFatherIndex gs i })
    groups

/-- Modelled from the spec (section 4.3 wording, for comparison with the
code): parent of group `index` is the group `k` whose member-vertex list
contains the origin vertex of group `index`, the most recently populated
(largest earlier index) candidate winning, `-1` when none exists. -/
def inferFatherIndexSpec (groups : List FtlGroup) (index : ℕ) : ℤ :=
  let origin := (groups.getD index dfltGroup).origin
  (List.range index).foldl
    (fun best k => if origin ∈ (groups.getD k dfltGroup).indices then (k : ℤ) else best)
    (-1)

lemma structEta_parentIndex (g : FtlGroup) :
    { g with parentIndex := g.parentIndex } = g := by
  cases g
  rfl

lemma set_getD_self {α : Type} (l : List α) (i : ℕ) (d : α) :
    l.set i (l.getD i d) = l := by
  induction l generalizing i with
  | nil => rfl
  | cons a l ih =>
      cases i with
      | zero => rfl
      | succ i =>
          simp only [List.set_cons_succ, List.getD_cons_succ]
          rw [ih]

/-- C4 counterexample: on load, the parent index of a group is whatever
parent index is already stored on the record, not the result of the
containment rule; group 1 carries the stored parent 7, which the
containment rule (whose only possible answers here are -1, 0 or 1) maps
to 0 instead. -/
theorem model_parent_c4_counterexample :
    ((loadFileParents [⟨0, [0, 1], -1⟩, ⟨1, [1], 7⟩]).getD 1 dfltGroup).parentIndex = 7
      ∧ inferFatherIndexSpec [⟨0, [0, 1], -1⟩, ⟨1, [1], 7⟩] 1 = 0
      ∧ (7 : ℤ) ≠ 0 ∧ (7 : ℤ) ≠ 1 ∧ (7 : ℤ) ≠ -1 := by
  refine ⟨by decide, by decide, by decide, by decide, by decide⟩

/-- C4 amended: the load path runs no containment inference at all — the
parent-assignment loop writes into each group the parent index read back
from that same group, so it leaves every group list unchanged, and any
stored or cached parent value survives the load. -/
theorem model_parent_c4_amended (groups : List FtlGroup) :
    loadFileParents groups = groups := by
  unfold loadFileParents
  have hstep : ∀ (l : List ℕ) (gs : List FtlGroup),
      (∀ i ∈ l, i < gs.length) →
      l.foldl (fun gs i =>
        gs.set i { gs.getD i dfltGroup with parentIndex := getFatherIndex gs i }) gs = gs := by
    intro l
    induction l with
    | nil => intro gs _; rfl
    | cons i t ih =>
        intro gs hmem
        have hi : i < gs.length := hmem i (List.mem_cons_self i t)
        have hone : gs.set i { gs.getD i dfltGroup with
            parentIndex := getFatherIndex gs i } = gs := by
          unfold getFatherIndex
          rw [structEta_parentIndex, set_getD_self]
        rw [List.foldl_cons, hone]
        exact ih gs (fun m hm => hmem m (List.mem_cons_of_mem i hm))
  exact hstep _ groups (fun i hi => List.mem_range.mp hi)

/-- Embeds the `vids` vertex-index triple of a decoded face as consumed by
`analyzeFaceData` (arx_io_model.py). -/
structure FtlFace where
  vids : ℕ × ℕ × ℕ
  deriving DecidableEq, Repr

/-- Default face for out-of-range access in the model. -/
def dfltFace : FtlFace := ⟨(0, 0, 0)⟩

/-- Embeds `itertools.permutations(face.vids)` on a 3-tuple, in the order
itertools yields them. -/
def perms3 (t : ℕ × ℕ × ℕ) : List (ℕ × ℕ × ℕ) :=
  [(t.1, t.2.1, t.2.2), (t.1, t.2.2, t.2.1), (t.2.1, t.1, t.2.2),
   (t.2.1, t.2.2, t.1), (t.2.2, t.1, t.2.1), (t.2.2, t.2.1, t.1)]

/-- Model of the `seenFaceVerts` Python dict as an association list:
lookup returns the value stored for a key. -/
def dictVal (d : List ((ℕ × ℕ × ℕ) × ℕ)) (k : ℕ × ℕ × ℕ) : Option ℕ :=
  match d with
  | [] => none
  | e :: d => if e.1 = k then some e.2 else dictVal d k

/-- Model of Python dict assignment: overwrite in place when the key is
present, append otherwise. -/
def dictPut (d : List ((ℕ × ℕ × ℕ) × ℕ)) (k : ℕ × ℕ × ℕ) (v : ℕ) :
    List ((ℕ × ℕ × ℕ) × ℕ) :=
  match d with
  | [] => [(k, v)]
  | e :: d => if e.1 = k then (k, v) :: d else e :: dictPut d k v

/-- Embeds one iteration of the `analyzeFaceData` loop (arx_io_model.py
lines 53-59): search the permutations of the current face vids for an
already-seen key; when found, append the seen index (the earlier face) to
the drop list; always store the current vids with the current index. -/
def analyzeStep (st : List ℕ × List ((ℕ × ℕ × ℕ) × ℕ)) (p : ℕ × FtlFace) :
    List ℕ × List ((ℕ × ℕ × ℕ) × ℕ) :=
  let facesToDrop :=
    match (perms3 p.2.vids).findSome? (fun foo => dictVal st.2 foo) with
    | some seen => st.1 ++ [seen]
    | none => st.1
  (facesToDrop, dictPut st.2 p.2.vids p.1)

/-- Embeds `analyzeFaceData` (arx_io_model.py lines 50-62). -/
def analyzeFaceData (faceData : List FtlFace) : List ℕ :=
  (faceData.enum.foldl analyzeStep ([], [])).1

/-- Embeds the face-drop filter of `createBmesh` (arx_io_model.py lines
76-78): the faces actually built are those whose index is not in the drop
list. -/
def keptFaceIndices (faceData : List FtlFace) : List ℕ :=
  (List.range faceData.length).filter (fun i => i ∉ analyzeFaceData faceData)

/-- C9 counterexample: face 1 vids `(2,1,0)` is a permutation of face 0
vids `(0,1,2)`, yet `analyzeFaceData` reports face 0 — the earlier face —
as the drop, and `createBmesh` keeps face 1, the opposite of the claim. -/
theorem analyze_face_c9_counterexample :
    analyzeFaceData [⟨(0, 1, 2)⟩, ⟨(2, 1, 0)⟩] = [0]
      ∧ keptFaceIndices [⟨(0, 1, 2)⟩, ⟨(2, 1, 0)⟩] = [1]
      ∧ (2, 1, 0) ∈ perms3 (0, 1, 2)
      ∧ (0 : ℕ) ∉ keptFaceIndices [⟨(0, 1, 2)⟩, ⟨(2, 1, 0)⟩] := by
  refine ⟨by decide, by decide, by decide, by decide⟩

lemma dictVal_put_self (d : List ((ℕ × ℕ × ℕ) × ℕ)) (k : ℕ × ℕ × ℕ) (v : ℕ) :
    dictVal (dictPut d k v) k = some v := by
  induction d with
  | nil => simp [dictPut, dictVal]
  | cons e d ih =>
      by_cases he : e.1 = k
      · simp [dictPut, dictVal, he]
      · simp [dictPut, dictVal, he, ih]

lemma dictVal_put_ne (d : List ((ℕ × ℕ × ℕ) × ℕ)) (k k' : ℕ × ℕ × ℕ) (v : ℕ)
    (hne : k' ≠ k) : dictVal (dictPut d k v) k' = dictVal d k' := by
  have hkk : ¬ k = k' := fun h => hne h.symm
  induction d with
  | nil => simp [dictPut, dictVal, hkk]
  | cons e d ih =>
      by_cases he : e.1 = k
      · simp [dictPut, dictVal, he, hkk]
      · simp only [dictPut, if_neg he]
        by_cases he' : e.1 = k'
        · simp [dictVal, he']
        · simp [dictVal, he', ih]

lemma dictVal_sound (d : List ((ℕ × ℕ × ℕ) × ℕ)) (k : ℕ × ℕ × ℕ) (v : ℕ)
    (h : dictVal d k = some v) : (k, v) ∈ d := by
  induction d with
  | nil => simp [dictVal] at h
  | cons e d ih =>
      by_cases he : e.1 = k
      · simp only [dictVal, if_pos he, Option.some_inj] at h
        have he2 : e = (k, v) := by
          obtain ⟨e1, e2⟩ := e
          simp only at he h
          rw [he, h]
        rw [he2]
        exact List.mem_cons_self _ _
      · simp only [dictVal, if_neg he] at h
        exact List.mem_cons_of_mem _ (ih h)

lemma mem_dictPut (d : List ((ℕ × ℕ × ℕ) × ℕ)) (k : ℕ × ℕ × ℕ) (v : ℕ)
    (p : (ℕ × ℕ × ℕ) × ℕ) (hp : p ∈ dictPut d k v) : p = (k, v) ∨ p ∈ d := by
  induction d with
  | nil => simpa [dictPut] using hp
  | cons e d ih =>
      by_cases he : e.1 = k
      · rw [dictPut, if_pos he] at hp
        rcases List.mem_cons.mp hp with hp | hp
        · exact Or.inl hp
        · exact Or.inr (List.mem_cons_of_mem _ hp)
      · rw [dictPut, if_neg he] at hp
        rcases List.mem_cons.mp hp with hp | hp
        · rw [hp]
          exact Or.inr (List.mem_cons_self _ _)
        · rcases ih hp with hh | hh
          · exact Or.inl hh
          · exact Or.inr (List.mem_cons_of_mem _ hh)

/-- State of the `analyzeFaceData` loop after the first `m` faces. -/
def analyzeStateAt (faceData : List FtlFace) (m : ℕ) :
    List ℕ × List ((ℕ × ℕ × ℕ) × ℕ) :=
  (faceData.enum.take m).foldl analyzeStep ([], [])

lemma analyzeStateAt_succ (faceData : List FtlFace) (m : ℕ) (hm : m < faceData.length) :
    analyzeStateAt faceData (m + 1)
      = analyzeStep (analyzeStateAt faceData m) (m, faceData.getD m dfltFace) := by
  unfold analyzeStateAt
  rw [List.take_succ]
  have henum : faceData.enum[m]? = some (m, faceData.getD m dfltFace) := by
    rw [List.getElem?_enum]
    rw [List.getD_eq_getElem _ _ hm]
    rw [List.getElem?_eq_getElem hm]
    rfl
  rw [henum]
  rw [List.foldl_append]
  rfl

lemma analyzeSeen_sound (faceData : List FtlFace) (m : ℕ) (hm : m ≤ faceData.length) :
    ∀ kv ∈ (analyzeStateAt faceData m).2,
      kv.2 < m ∧ (faceData.getD kv.2 dfltFace).vids = kv.1 := by
  induction m with
  | zero =>
      intro kv hkv
      simp [analyzeStateAt] at hkv
  | succ m ih =>
      intro kv hkv
      have hmlt : m < faceData.length := lt_of_lt_of_le (Nat.lt_succ_self m) hm
      rw [analyzeStateAt_succ faceData m hmlt] at hkv
      unfold analyzeStep at hkv
      simp only at hkv
      rcases mem_dictPut _ _ _ _ hkv with hh | hh
      · subst hh
        exact ⟨Nat.lt_succ_self m, rfl⟩
      · obtain ⟨h1, h2⟩ := ih (le_of_lt hmlt) kv hh
        exact ⟨Nat.lt_succ_of_lt h1, h2⟩

lemma analyzeSeen_complete (faceData : List FtlFace) (m : ℕ) (hm : m ≤ faceData.length) :
    ∀ i < m, ∃ v,
      dictVal (analyzeStateAt faceData m).2 ((faceData.getD i dfltFace).vids) = some v := by
  induction m with
  | zero =>
      intro i hi
      omega
  | succ m ih =>
      intro i hi
      have hmlt : m < faceData.length := lt_of_lt_of_le (Nat.lt_succ_self m) hm
      rw [analyzeStateAt_succ faceData m hmlt]
      unfold analyzeStep
      simp only
      by_cases hkey : (faceData.getD i dfltFace).vids = (faceData.getD m dfltFace).vids
      · rw [hkey, dictVal_put_self]
        exact ⟨m, rfl⟩
      · rw [dictVal_put_ne _ _ _ _ hkey]
        have him : i < m := by
          rcases Nat.lt_succ_iff_lt_or_eq.mp hi with hh | hh
          · exact hh
          · exact absurd (by rw [hh]) hkey
        exact ih (le_of_lt hmlt) i him

lemma analyzeDrops_mono (l : List (ℕ × FtlFace)) :
    ∀ (st : List ℕ × List ((ℕ × ℕ × ℕ) × ℕ)) (x : ℕ),
      x ∈ st.1 → x ∈ (l.foldl analyzeStep st).1 := by
  induction l with
  | nil => intro st x hx; exact hx
  | cons p l ih =>
      intro st x hx
      rw [List.foldl_cons]
      apply ih
      unfold analyzeStep
      simp only
      cases (perms3 p.2.vids).findSome? (fun foo => dictVal st.2 foo) with
      | none => exact hx
      | some s => exact List.mem_append_left _ hx

/-- C9 amended: when face `j` duplicates an earlier face (its vertex triple
is a permutation of an earlier face triple), `analyzeFaceData` does report
a drop for the collision, but the dropped index is an earlier matching face
(the most recent face with the matched triple), not the later face `j`. -/
theorem analyze_face_c9_amended (faceData : List FtlFace) (j : ℕ)
    (hj : j < faceData.length) (i : ℕ) (hij : i < j)
    (hperm : (faceData.getD i dfltFace).vids ∈ perms3 ((faceData.getD j dfltFace).vids)) :
    ∃ k, k < j
      ∧ (faceData.getD k dfltFace).vids ∈ perms3 ((faceData.getD j dfltFace).vids)
      ∧ k ∈ analyzeFaceData faceData := by
  have hsplit : faceData.enum = faceData.enum.take (j + 1) ++ faceData.enum.drop (j + 1) :=
    (List.take_append_drop _ _).symm
  have hfold : analyzeFaceData faceData
      = ((faceData.enum.drop (j + 1)).foldl analyzeStep (analyzeStateAt faceData (j + 1))).1 := by
    unfold analyzeFaceData analyzeStateAt
    rw [hsplit, List.foldl_append]
    rw [← hsplit]
  have hstep := analyzeStateAt_succ faceData j hj
  set stj := analyzeStateAt faceData j with hstj
  have hcomplete := analyzeSeen_complete faceData j (le_of_lt hj) i hij
  obtain ⟨v, hv⟩ := hcomplete
  have hhit : (perms3 ((faceData.getD j dfltFace).vids)).findSome?
      (fun foo => dictVal stj.2 foo) ≠ none := by
    intro hnone
    have hall := List.findSome?_eq_none_iff.mp hnone
    have := hall _ hperm
    rw [hv] at this
    exact Option.noConfusion this
  cases hfs : (perms3 ((faceData.getD j dfltFace).vids)).findSome?
      (fun foo => dictVal stj.2 foo) with
  | none => exact absurd hfs hhit
  | some s =>
      obtain ⟨foo, hfoo, hfooval⟩ := List.exists_of_findSome?_eq_some hfs
      have hsnd := dictVal_sound _ _ _ hfooval
      obtain ⟨hslt, hsvids⟩ := analyzeSeen_sound faceData j (le_of_lt hj) _ hsnd
      refine ⟨s, hslt, ?_, ?_⟩
      · rw [hsvids]
        exact hfoo
      · rw [hfold]
        apply analyzeDrops_mono
        rw [hstep]
        unfold analyzeStep
        simp only
        rw [hfs]
        exact List.mem_append_right _ (List.mem_singleton.mpr rfl)

/-- Closed witness for the amended C9 theorem: face 2 duplicates face 0 in
a three-face list and an earlier matching face index appears in the drop
list. -/
theorem analyze_face_c9_amended_witness :
    ∃ k, k < 2
      ∧ (([⟨(0, 1, 2)⟩, ⟨(3, 4, 5)⟩, ⟨(1, 2, 0)⟩] : List FtlFace).getD k dfltFace).vids
          ∈ perms3 ((([⟨(0, 1, 2)⟩, ⟨(3, 4, 5)⟩, ⟨(1, 2, 0)⟩] : List FtlFace).getD 2 dfltFace).vids)
      ∧ k ∈ analyzeFaceData [⟨(0, 1, 2)⟩, ⟨(3, 4, 5)⟩, ⟨(1, 2, 0)⟩] :=
  analyze_face_c9_amended [⟨(0, 1, 2)⟩, ⟨(3, 4, 5)⟩, ⟨(1, 2, 0)⟩] 2 (by decide) 0 (by decide)
    (by decide)

/-! ### Scene encoder: FtsSerializer.write_fts (dataFts.py lines 556-794) -/

/-- Projection of a cell polygon to the field the `write_fts` room-count
fallback reads (dataFts.py line 586): the room id. -/
structure CellPoly where
  room : ℤ
  deriving DecidableEq, Repr

/-- Projection of a portal to the fields the `write_fts` room-count
fallback reads (dataFts.py line 588). -/
structure FtsPortal where
  room1 : ℤ
  room2 : ℤ
  deriving DecidableEq, Repr

/-- Python truthiness of a cell slot: `None` and the empty list are falsy. -/
def cellTruthy {α : Type} (c : Option (List α)) : Bool :=
  match c with
  | none => false
  | some l => !l.isEmpty

/-- Embeds the `nb_rooms` header computation of `write_fts` (dataFts.py
lines 576-589): if the serializer stored an original header during a prior
`read_fts_container`, its `nb_rooms` is copied; otherwise the maximum room
id over the first 160x160 cells and over the portals, plus one. -/
def writeFtsNbRooms (originalHeaderNbRooms : Option ℤ)
    (cells : List (List (Option (List CellPoly)))) (portals : List FtsPortal) : ℤ :=
  match originalHeaderNbRooms with
  | some nb => nb
  | none =>
      let maxRoom := (List.range 160).foldl
        (fun mr z => (List.range 160).foldl
          (fun mr x =>
            if z < cells.length ∧ x < (cells.getD z []).length
                ∧ cellTruthy ((cells.getD z []).getD x none) then
              (((cells.getD z []).getD x none).getD []).foldl (fun m p => max m p.room) mr
            else mr)
          mr)
        0
      let maxRoom := portals.foldl (fun m p => max (max m p.room1) p.room2) maxRoom
      maxRoom + 1

/-- Embeds the per-cell `scene_info.nbpoly` value that `write_fts` writes
for cell `(z, x)` (dataFts.py lines 616-637): the length of the cell list,
0 for an absent cell. -/
def writeFtsCellNbpoly {α : Type} (cells : List (List (Option (List α)))) (z x : ℕ) : ℕ :=
  match (cells.getD z []).getD x none with
  | none => 0
  | some l => l.length

/-- Embeds a `FAST_EP_DATA` room polygon reference. -/
structure EpData where
  px : ℤ
  py : ℤ
  idx : ℤ
  padd : ℤ
  deriving DecidableEq, Repr

/-- Embeds one room record of the decoded `room_data` list as consumed by
the `write_fts` room section: the portal-index tail and the
polygon-reference tail. -/
structure RoomEntry where
  portalIndices : List ℤ
  polyRefs : List EpData
  deriving DecidableEq, Repr

/-- Embeds the room polygon references emitted by the `write_fts` room
section (dataFts.py lines 734-764): each room's stored `room_poly_refs`
list is written out as given, in room order. -/
def writeFtsRoomRefs (roomDataList : List RoomEntry) : List EpData :=
  roomDataList.foldl (fun acc room => acc ++ room.polyRefs) []

/-- Specification-level maximum room id: over all polygons of the 160x160
grid region and both rooms of every portal. -/
def maxRoomSpec (cells : List (List (Option (List CellPoly)))) (portals : List FtsPortal) : ℤ :=
  let gridPolys := (cells.take 160).flatMap
    (fun row => (row.take 160).flatMap (fun c => c.getD []))
  ((gridPolys.map (fun p => p.room)) ++ portals.flatMap (fun p => [p.room1, p.room2])).foldl
    max 0

lemma foldl_range_flat {α β : Type} (g : ℕ → List α) (f : β → α → β) (n : ℕ) (init : β) :
    (List.range n).foldl (fun mr i => (g i).foldl f mr) init
      = ((List.range n).flatMap g).foldl f init := by
  induction n generalizing init with
  | zero => rfl
  | succ n ih =>
      rw [List.range_succ, List.foldl_append, List.flatMap_append, List.foldl_append, ih]
      simp

lemma range_flatMap_getD {α β : Type} (l : List α) (d : α) (g : α → List β)
    (hd : g d = []) (n : ℕ) :
    (List.range n).flatMap (fun i => g (l.getD i d)) = (l.take n).flatMap g := by
  induction n with
  | zero => simp
  | succ n ih =>
      rw [List.range_succ, List.flatMap_append, ih]
      have hsingle : ([n].flatMap fun i => g (l.getD i d)) = g (l.getD n d) := by
        simp
      rw [hsingle]
      by_cases hn : n < l.length
      · rw [List.take_succ, List.getElem?_eq_getElem hn, List.flatMap_append,
          List.getD_eq_getElem l d hn]
        simp
      · push_neg at hn
        rw [List.getD_eq_default l d hn, hd,
          List.take_of_length_le (le_trans hn (Nat.le_succ n)), List.take_of_length_le hn]
        simp

lemma writeFtsNbRooms_none_eq (cells : List (List (Option (List CellPoly))))
    (portals : List FtsPortal) :
    writeFtsNbRooms none cells portals = maxRoomSpec cells portals + 1 := by
  unfold writeFtsNbRooms maxRoomSpec
  simp only
  congr 1
  rw [List.foldl_append]
  have hcell : ∀ (z x : ℕ) (mr : ℤ),
      (if z < cells.length ∧ x < (cells.getD z []).length
          ∧ cellTruthy ((cells.getD z []).getD x none) then
        (((cells.getD z []).getD x none).getD []).foldl (fun m p => max m p.room) mr
      else mr)
        = (((cells.getD z []).getD x none).getD []).foldl (fun m p => max m p.room) mr := by
    intro z x mr
    split
    · rfl
    · rename_i hcond
      rcases hc : (cells.getD z []).getD x none with _ | l
      · rfl
      · cases l with
        | nil => rfl
        | cons p ps =>
            exfalso
            apply hcond
            by_cases hz : z < cells.length
            · by_cases hx : x < (cells.getD z []).length
              · exact ⟨hz, hx, by rw [hc]; rfl⟩
              · push_neg at hx
                rw [List.getD_eq_default _ _ hx] at hc
                exact Option.noConfusion hc
            · push_neg at hz
              rw [List.getD_eq_default _ _ hz] at hc
              simp at hc
  have hinner : ∀ (z : ℕ) (mr : ℤ),
      (List.range 160).foldl
        (fun mr x =>
          if z < cells.length ∧ x < (cells.getD z []).length
              ∧ cellTruthy ((cells.getD z []).getD x none) then
            (((cells.getD z []).getD x none).getD []).foldl (fun m p => max m p.room) mr
          else mr)
        mr
        = (((cells.getD z []).take 160).flatMap (fun c => c.getD [])).foldl
            (fun m p => max m p.room) mr := by
    intro z mr
    have hext : (List.range 160).foldl
        (fun mr x =>
          if z < cells.length ∧ x < (cells.getD z []).length
              ∧ cellTruthy ((cells.getD z []).getD x none) then
            (((cells.getD z []).getD x none).getD []).foldl (fun m p => max m p.room) mr
          else mr)
        mr
        = (List.range 160).foldl
          (fun mr x =>
            (((cells.getD z []).getD x none).getD []).foldl (fun m p => max m p.room) mr)
          mr := by
      apply List.foldl_ext
      intro mr x _
      exact hcell z x mr
    have hflat : ((List.range 160).flatMap
          (fun x => ((cells.getD z []).getD x none).getD []))
        = ((cells.getD z []).take 160).flatMap
          (fun (c : Option (List CellPoly)) => c.getD []) :=
      range_flatMap_getD (cells.getD z []) none
        (fun (c : Option (List CellPoly)) => c.getD []) rfl 160
    rw [hext, foldl_range_flat, hflat]
  have houter : (List.range 160).foldl
      (fun mr z => (List.range 160).foldl
        (fun mr x =>
          if z < cells.length ∧ x < (cells.getD z []).length
              ∧ cellTruthy ((cells.getD z []).getD x none) then
            (((cells.getD z []).getD x none).getD []).foldl (fun m p => max m p.room) mr
          else mr)
        mr)
      (0 : ℤ)
      = ((cells.take 160).flatMap
          (fun row => (row.take 160).flatMap (fun c => c.getD []))).foldl
          (fun m p => max m p.room) 0 := by
    have hext : (List.range 160).foldl
        (fun mr z => (List.range 160).foldl
          (fun mr x =>
            if z < cells.length ∧ x < (cells.getD z []).length
                ∧ cellTruthy ((cells.getD z []).getD x none) then
              (((cells.getD z []).getD x none).getD []).foldl (fun m p => max m p.room) mr
            else mr)
          mr)
        (0 : ℤ)
        = (List.range 160).foldl
          (fun mr z =>
            (((cells.getD z []).take 160).flatMap
                (fun (c : Option (List CellPoly)) => c.getD [])).foldl
              (fun m p => max m p.room) mr)
          (0 : ℤ) := by
      apply List.foldl_ext
      intro mr z _
      exact hinner z mr
    have hflat : ((List.range 160).flatMap
          (fun z => ((cells.getD z []).take 160).flatMap
            (fun (c : Option (List CellPoly)) => c.getD [])))
        = (cells.take 160).flatMap
          (fun row => (row.take 160).flatMap (fun c => c.getD [])) :=
      range_flatMap_getD cells []
        (fun (row : List (Option (List CellPoly))) =>
          (row.take 160).flatMap (fun c => c.getD [])) rfl 160
    rw [hext, foldl_range_flat, hflat]
  rw [houter]
  have hportal : ∀ (ps : List FtsPortal) (init : ℤ),
      ps.foldl (fun m p => max (max m p.room1) p.room2) init
        = (ps.flatMap (fun p => [p.room1, p.room2])).foldl max init := by
    intro ps
    induction ps with
    | nil => intro init; rfl
    | cons p ps ih =>
        intro init
        rw [List.foldl_cons, List.flatMap_cons, List.foldl_append, ih]
        rfl
  rw [hportal]
  rw [List.foldl_map]

/-- C8 counterexample: encoding the same empty record writes `nb_rooms = 5`
on a serializer that stored an original header with 5 rooms during a prior
decode, and `nb_rooms = 1` on a fresh serializer — so the encoded header
depends on which decode calls came before on the same instance. -/
theorem write_fts_rooms_c8_counterexample :
    writeFtsNbRooms (some 5) [] [] = 5
      ∧ writeFtsNbRooms none [] [] = 1
      ∧ (5 : ℤ) ≠ 1 := by
  refine ⟨rfl, ?_, by decide⟩
  rw [writeFtsNbRooms_none_eq]
  decide

/-- C8 amended: `write_fts` header counts are not a pure function of the
record — when the serializer instance carries the header stored by a prior
`read_fts_container`, the encoded `nb_rooms` is copied from that stored
header; only a fresh instance recomputes it as the maximum room id over
the grid polygons and portals plus one. -/
theorem write_fts_rooms_c8_amended (h : ℤ)
    (cells : List (List (Option (List CellPoly)))) (portals : List FtsPortal) :
    writeFtsNbRooms (some h) cells portals = h
      ∧ writeFtsNbRooms none cells portals = maxRoomSpec cells portals + 1 :=
  ⟨rfl, writeFtsNbRooms_none_eq cells portals⟩

/-! ### Room polygon references: write_fts room section and the caller's
rebuild pass (_rebuildRoomPolygonReferences, arx_ui_area.py lines 937-1014;
_reconstructCellGrid, arx_ui_area.py lines 1940-2084) -/

lemma writeFtsRoomRefs_eq (roomDataList : List RoomEntry) :
    writeFtsRoomRefs roomDataList = roomDataList.flatMap (fun r => r.polyRefs) := by
  unfold writeFtsRoomRefs
  have haux : ∀ (l : List RoomEntry) (acc : List EpData),
      l.foldl (fun acc room => acc ++ room.polyRefs) acc
        = acc ++ l.flatMap (fun r => r.polyRefs) := by
    intro l
    induction l with
    | nil => intro acc; simp
    | cons r l ih =>
        intro acc
        rw [List.foldl_cons, ih, List.flatMap_cons, List.append_assoc]
  rw [haux]
  rfl

/-- C5 counterexample: a record whose cell (0,0) holds one polygon but whose
room data carries a stale reference `(px=0, py=0, idx=5)` is encoded with
that reference copied verbatim, so the output contains a reference whose
index is not below the polygon count written for its cell. -/
theorem room_refs_c5_counterexample :
    writeFtsRoomRefs [⟨[], [⟨0, 0, 5, 0⟩]⟩] = [⟨0, 0, 5, 0⟩]
      ∧ writeFtsCellNbpoly [[some [(⟨2⟩ : CellPoly)]]] 0 0 = 1
      ∧ ¬ ((⟨0, 0, 5, 0⟩ : EpData).idx
            < (writeFtsCellNbpoly [[some [(⟨2⟩ : CellPoly)]]] 0 0 : ℤ)) := by
  refine ⟨rfl, rfl, by decide⟩

/-- Embeds the fields of a converted face that the rebuild and
cell-reconstruction passes read (arx_ui_area.py lines 951-954, 2060-2061):
preserved cell coordinates and room id. -/
structure ConvFace where
  cellX : ℤ
  cellZ : ℤ
  room : ℤ
  deriving DecidableEq, Repr

/-- Lookup in the `cell_polygons` dict model (key: cell coordinates). -/
def cellMapGet (m : List ((ℤ × ℤ) × List (ℤ × ℕ))) (k : ℤ × ℤ) :
    Option (List (ℤ × ℕ)) :=
  match m with
  | [] => none
  | e :: m => if e.1 = k then some e.2 else cellMapGet m k

/-- Append one `(room, idx)` pair to the list stored under a key in the
`cell_polygons` dict model, creating the entry when absent. -/
def cellMapApp (m : List ((ℤ × ℤ) × List (ℤ × ℕ))) (k : ℤ × ℤ) (v : ℤ × ℕ) :
    List ((ℤ × ℤ) × List (ℤ × ℕ)) :=
  match m with
  | [] => [(k, [v])]
  | e :: m => if e.1 = k then (e.1, e.2 ++ [v]) :: m else e :: cellMapApp m k v

/-- Embeds one iteration of the cell-mapping pass of
`_rebuildRoomPolygonReferences` (arx_ui_area.py lines 951-962): the polygon
index within the cell is the current length of the cell's list. -/
def addFaceToCells (m : List ((ℤ × ℤ) × List (ℤ × ℕ))) (f : ConvFace) :
    List ((ℤ × ℤ) × List (ℤ × ℕ)) :=
  let key := (f.cellX, f.cellZ)
  cellMapApp m key (f.room, ((cellMapGet m key).getD []).length)

/-- Embeds the `cell_polygons` map built in a single pass over the
converted faces (arx_ui_area.py lines 948-962). -/
def cellPolygons (faces : List ConvFace) : List ((ℤ × ℤ) × List (ℤ × ℕ)) :=
  faces.foldl addFaceToCells []

/-- Embeds the references collected for one room id by
`_rebuildRoomPolygonReferences` (arx_ui_area.py lines 964-995): for every
cell entry, the pairs whose room id matches become `(px, py, idx)`
references with zero padding. -/
def roomRefs (faces : List ConvFace) (r : ℤ) : List EpData :=
  (cellPolygons faces).flatMap
    (fun e => (e.2.filter (fun q => q.1 = r)).map
      (fun q => ⟨e.1.1, e.1.2, (q.2 : ℤ), 0⟩))

/-- Default room entry for out-of-range access in the model. -/
def dfltRoom : RoomEntry := ⟨[], []⟩

/-- Embeds the room rebuild of `_rebuildRoomPolygonReferences`
(arx_ui_area.py lines 973-999): portal indices are kept, polygon
references are replaced by the rebuilt per-room lists. -/
def rebuildRoomData (faces : List ConvFace) (roomData : List RoomEntry) :
    List RoomEntry :=
  (List.range roomData.length).map
    (fun ri => ⟨(roomData.getD ri dfltRoom).portalIndices, roomRefs faces (ri : ℤ)⟩)

/-- Number of converted faces whose preserved cell coordinates are
`(px, pz)`. -/
def countCellFaces (faces : List ConvFace) (px pz : ℤ) : ℕ :=
  (faces.filter (fun f => f.cellX = px ∧ f.cellZ = pz)).length

/-- Embeds the placement loop of `_reconstructCellGrid` (arx_ui_area.py
lines 2050-2075): faces with in-range preserved cell coordinates are
appended to their cell of a fresh 160x160 grid; out-of-range faces are
skipped. -/
def placeFace (grid : List (List (Option (List ConvFace)))) (f : ConvFace) :
    List (List (Option (List ConvFace))) :=
  if 0 ≤ f.cellX ∧ f.cellX < 160 ∧ 0 ≤ f.cellZ ∧ f.cellZ < 160 then
    grid.set f.cellZ.toNat
      ((grid.getD f.cellZ.toNat []).set f.cellX.toNat
        (some ((((grid.getD f.cellZ.toNat []).getD f.cellX.toNat none).getD []) ++ [f])))
  else grid

def reconstructCellGrid (faces : List ConvFace) : List (List (Option (List ConvFace))) :=
  faces.foldl placeFace (List.replicate 160 (List.replicate 160 none))

lemma cellMapGet_sound (m : List ((ℤ × ℤ) × List (ℤ × ℕ))) (k : ℤ × ℤ)
    (l : List (ℤ × ℕ)) (h : cellMapGet m k = some l) : (k, l) ∈ m := by
  induction m with
  | nil => simp [cellMapGet] at h
  | cons e m ih =>
      by_cases he : e.1 = k
      · simp only [cellMapGet, if_pos he, Option.some_inj] at h
        have he2 : e = (k, l) := by
          obtain ⟨e1, e2⟩ := e
          simp only at he h
          rw [he, h]
        rw [he2]
        exact List.mem_cons_self _ _
      · simp only [cellMapGet, if_neg he] at h
        exact List.mem_cons_of_mem _ (ih h)

lemma cellMapGet_app_self (m : List ((ℤ × ℤ) × List (ℤ × ℕ))) (k : ℤ × ℤ) (v : ℤ × ℕ) :
    cellMapGet (cellMapApp m k v) k = some (((cellMapGet m k).getD []) ++ [v]) := by
  induction m with
  | nil => simp [cellMapApp, cellMapGet]
  | cons e m ih =>
      by_cases he : e.1 = k
      · simp [cellMapApp, cellMapGet, he]
      · simp [cellMapApp, cellMapGet, he, ih]

lemma cellMapGet_app_ne (m : List ((ℤ × ℤ) × List (ℤ × ℕ))) (k k' : ℤ × ℤ) (v : ℤ × ℕ)
    (hne : k' ≠ k) : cellMapGet (cellMapApp m k v) k' = cellMapGet m k' := by
  have hkk : ¬ k = k' := fun h => hne h.symm
  induction m with
  | nil => simp [cellMapApp, cellMapGet, hkk]
  | cons e m ih =>
      by_cases he : e.1 = k
      · simp [cellMapApp, cellMapGet, he, hkk]
      · simp only [cellMapApp, if_neg he]
        by_cases he' : e.1 = k'
        · simp [cellMapGet, he']
        · simp [cellMapGet, he', ih]

lemma mem_cellMapApp (m : List ((ℤ × ℤ) × List (ℤ × ℕ))) (k : ℤ × ℤ) (v : ℤ × ℕ)
    (p : (ℤ × ℤ) × List (ℤ × ℕ)) (hp : p ∈ cellMapApp m k v) :
    p = (k, ((cellMapGet m k).getD []) ++ [v]) ∨ p ∈ m := by
  induction m with
  | nil =>
      simp only [cellMapApp, List.mem_singleton] at hp
      left
      rw [hp]
      rfl
  | cons e m ih =>
      by_cases he : e.1 = k
      · rw [cellMapApp, if_pos he] at hp
        rcases List.mem_cons.mp hp with hp | hp
        · left
          rw [hp]
          simp [cellMapGet, he]
        · exact Or.inr (List.mem_cons_of_mem _ hp)
      · rw [cellMapApp, if_neg he] at hp
        rcases List.mem_cons.mp hp with hp | hp
        · rw [hp]
          exact Or.inr (List.mem_cons_self _ _)
        · rcases ih hp with hh | hh
          · left
            rw [hh]
            simp [cellMapGet, he]
          · exact Or.inr (List.mem_cons_of_mem _ hh)

lemma keys_mem_cellMapApp (m : List ((ℤ × ℤ) × List (ℤ × ℕ))) (k : ℤ × ℤ) (v : ℤ × ℕ)
    (x : ℤ × ℤ) (hx : x ∈ (cellMapApp m k v).map (fun e => e.1)) :
    x ∈ m.map (fun e => e.1) ∨ x = k := by
  rcases List.mem_map.mp hx with ⟨p, hp, hpx⟩
  rcases mem_cellMapApp m k v p hp with h | h
  · right
    rw [← hpx, h]
  · left
    exact List.mem_map.mpr ⟨p, h, hpx⟩

lemma nodupKeys_cellMapApp (m : List ((ℤ × ℤ) × List (ℤ × ℕ))) (k : ℤ × ℤ) (v : ℤ × ℕ)
    (h : (m.map (fun e => e.1)).Nodup) :
    ((cellMapApp m k v).map (fun e => e.1)).Nodup := by
  induction m with
  | nil => simp [cellMapApp]
  | cons e m ih =>
      rw [List.map_cons, List.nodup_cons] at h
      obtain ⟨hnotin, hnd⟩ := h
      by_cases he : e.1 = k
      · rw [cellMapApp, if_pos he, List.map_cons, List.nodup_cons]
        exact ⟨hnotin, hnd⟩
      · rw [cellMapApp, if_neg he, List.map_cons, List.nodup_cons]
        refine ⟨?_, ih hnd⟩
        intro hmem
        rcases keys_mem_cellMapApp m k v e.1 hmem with hh | hh
        · exact hnotin hh
        · exact he hh

lemma cellMapGet_of_mem (m : List ((ℤ × ℤ) × List (ℤ × ℕ)))
    (hnd : (m.map (fun e => e.1)).Nodup) (e : (ℤ × ℤ) × List (ℤ × ℕ)) (he : e ∈ m) :
    cellMapGet m e.1 = some e.2 := by
  induction m with
  | nil => simp at he
  | cons e0 m ih =>
      rw [List.map_cons, List.nodup_cons] at hnd
      rcases List.mem_cons.mp he with h | h
      · rw [h]
        simp [cellMapGet]
      · have hne : ¬ e0.1 = e.1 := by
          intro heq
          exact hnd.1 (heq ▸ List.mem_map.mpr ⟨e, h, rfl⟩)
        rw [cellMapGet, if_neg hne]
        exact ih hnd.2 h

lemma countCellFaces_cons (f : ConvFace) (fs : List ConvFace) (px pz : ℤ) :
    countCellFaces (f :: fs) px pz
      = countCellFaces fs px pz + (if f.cellX = px ∧ f.cellZ = pz then 1 else 0) := by
  unfold countCellFaces
  rw [List.filter_cons]
  split
  · rename_i hcond
    rw [if_pos (by simpa using hcond)]
    simp [Nat.add_comm]
  · rename_i hcond
    rw [if_neg (by simpa using hcond)]
    omega

lemma cellLenAt_addFace (m : List ((ℤ × ℤ) × List (ℤ × ℕ))) (f : ConvFace) (k : ℤ × ℤ) :
    ((cellMapGet (addFaceToCells m f) k).getD []).length
      = ((cellMapGet m k).getD []).length
        + (if f.cellX = k.1 ∧ f.cellZ = k.2 then 1 else 0) := by
  unfold addFaceToCells
  by_cases hk : (f.cellX, f.cellZ) = k
  · subst hk
    rw [cellMapGet_app_self]
    rw [if_pos ⟨rfl, rfl⟩]
    simp
  · have hne : k ≠ (f.cellX, f.cellZ) := fun h => hk h.symm
    rw [cellMapGet_app_ne _ _ _ _ hne]
    rw [if_neg (fun hc => hk (by
      obtain ⟨k1, k2⟩ := k
      simp only at hc
      rw [hc.1, hc.2]))]
    simp

lemma lenAt_foldl (fs : List ConvFace) :
    ∀ (m : List ((ℤ × ℤ) × List (ℤ × ℕ))) (k : ℤ × ℤ),
      ((cellMapGet (fs.foldl addFaceToCells m) k).getD []).length
        = ((cellMapGet m k).getD []).length + countCellFaces fs k.1 k.2 := by
  induction fs with
  | nil =>
      intro m k
      simp [countCellFaces]
  | cons f fs ih =>
      intro m k
      rw [List.foldl_cons, ih, cellLenAt_addFace, countCellFaces_cons]
      omega

lemma bound_foldl (fs : List ConvFace) :
    ∀ (m : List ((ℤ × ℤ) × List (ℤ × ℕ))),
      (∀ e ∈ m, ∀ q ∈ e.2, q.2 < e.2.length) →
      ∀ e ∈ fs.foldl addFaceToCells m, ∀ q ∈ e.2, q.2 < e.2.length := by
  induction fs with
  | nil => intro m hm; exact hm
  | cons f fs ih =>
      intro m hm
      rw [List.foldl_cons]
      apply ih
      intro e he q hq
      rcases mem_cellMapApp _ _ _ _ he with h | h
      · rw [h] at hq ⊢
        simp only [List.length_append, List.length_singleton]
        rcases List.mem_append.mp hq with hq | hq
        · cases hget : cellMapGet m (f.cellX, f.cellZ) with
          | none =>
              rw [hget] at hq
              simp at hq
          | some l =>
              rw [hget] at hq
              simp only [Option.getD_some] at hq ⊢
              have hmem := cellMapGet_sound m _ _ hget
              exact Nat.lt_succ_of_lt (hm _ hmem q hq)
        · rw [List.mem_singleton] at hq
          rw [hq]
          omega
      · exact hm e h q hq

lemma nodup_foldl (fs : List ConvFace) :
    ∀ (m : List ((ℤ × ℤ) × List (ℤ × ℕ))),
      (m.map (fun e => e.1)).Nodup →
      ((fs.foldl addFaceToCells m).map (fun e => e.1)).Nodup := by
  induction fs with
  | nil => intro m hm; exact hm
  | cons f fs ih =>
      intro m hm
      rw [List.foldl_cons]
      exact ih _ (nodupKeys_cellMapApp _ _ _ hm)

lemma cellPolygons_entry (faces : List ConvFace) (e : (ℤ × ℤ) × List (ℤ × ℕ))
    (he : e ∈ cellPolygons faces) :
    (∀ q ∈ e.2, q.2 < e.2.length)
      ∧ e.2.length = countCellFaces faces e.1.1 e.1.2 := by
  constructor
  · exact bound_foldl faces [] (by simp) e he
  · have hnd := nodup_foldl faces [] (by simp)
    have hlook := cellMapGet_of_mem _ hnd e he
    have hlen := lenAt_foldl faces [] e.1
    unfold cellPolygons at hlook
    rw [hlook] at hlen
    simpa [cellMapGet] using hlen

lemma roomRefs_mem (faces : List ConvFace) (r : ℤ) (ref : EpData)
    (h : ref ∈ roomRefs faces r) :
    ∃ e ∈ cellPolygons faces, ∃ q ∈ e.2,
      q.1 = r ∧ ref = ⟨e.1.1, e.1.2, (q.2 : ℤ), 0⟩ := by
  unfold roomRefs at h
  rcases List.mem_flatMap.mp h with ⟨e, he, hin⟩
  rcases List.mem_map.mp hin with ⟨q, hq, hqe⟩
  rcases List.mem_filter.mp hq with ⟨hq2, hqr⟩
  exact ⟨e, he, q, hq2, by simpa using hqr, hqe.symm⟩

lemma getD_set_eq {α : Type} (l : List α) (i : ℕ) (a d : α) (h : i < l.length) :
    (l.set i a).getD i d = a := by
  induction l generalizing i with
  | nil => simp at h
  | cons b l ih =>
      cases i with
      | zero => rfl
      | succ i =>
          simp only [List.set_cons_succ, List.getD_cons_succ]
          exact ih i (by simpa using h)

lemma getD_set_ne {α : Type} (l : List α) (i j : ℕ) (a d : α) (h : i ≠ j) :
    (l.set i a).getD j d = l.getD j d := by
  induction l generalizing i j with
  | nil => rfl
  | cons b l ih =>
      cases i with
      | zero =>
          cases j with
          | zero => exact absurd rfl h
          | succ j => rfl
      | succ i =>
          cases j with
          | zero => rfl
          | succ j =>
              simp only [List.set_cons_succ, List.getD_cons_succ]
              exact ih i j (fun hh => h (by rw [hh]))

lemma getD_replicate {α : Type} (n i : ℕ) (a d : α) :
    (List.replicate n a).getD i d = if i < n then a else d := by
  induction n generalizing i with
  | zero => simp
  | succ n ih =>
      cases i with
      | zero => simp [List.replicate_succ]
      | succ i =>
          rw [List.replicate_succ, List.getD_cons_succ, ih]
          by_cases hi : i < n
          · rw [if_pos hi, if_pos (by omega)]
          · rw [if_neg hi, if_neg (by omega)]

/-- Wellformedness of the reconstruction grid: 160 rows of 160 cells. -/
def GridWF (grid : List (List (Option (List ConvFace)))) : Prop :=
  grid.length = 160 ∧ ∀ row ∈ grid, row.length = 160

lemma gridWF_placeFace (grid : List (List (Option (List ConvFace)))) (f : ConvFace)
    (h : GridWF grid) : GridWF (placeFace grid f) := by
  unfold placeFace
  split
  · rename_i hcond
    constructor
    · rw [List.length_set]
      exact h.1
    · intro row hrow
      rcases List.mem_or_eq_of_mem_set hrow with hr | hr
      · exact h.2 row hr
      · rw [hr, List.length_set]
        apply h.2
        have hz : f.cellZ.toNat < grid.length := by
          rw [h.1]
          omega
        rw [List.getD_eq_getElem _ _ hz]
        exact List.getElem_mem hz
  · exact h

lemma nbpoly_placeFace (grid : List (List (Option (List ConvFace)))) (f : ConvFace)
    (z x : ℕ) (hwf : GridWF grid) (hz : z < 160) (hx : x < 160)
    (hrange : 0 ≤ f.cellX ∧ f.cellX < 160 ∧ 0 ≤ f.cellZ ∧ f.cellZ < 160) :
    writeFtsCellNbpoly (placeFace grid f) z x
      = writeFtsCellNbpoly grid z x
        + (if f.cellX = (x : ℤ) ∧ f.cellZ = (z : ℤ) then 1 else 0) := by
  unfold placeFace
  rw [if_pos hrange]
  have hrow : (grid.getD f.cellZ.toNat []).length = 160 ∨ f.cellZ.toNat ≥ grid.length := by
    by_cases hzlen : f.cellZ.toNat < grid.length
    · left
      apply hwf.2
      rw [List.getD_eq_getElem _ _ hzlen]
      exact List.getElem_mem hzlen
    · right
      omega
  by_cases hzz : f.cellZ.toNat = z
  · by_cases hxx : f.cellX.toNat = x
    · have hcond : f.cellX = (x : ℤ) ∧ f.cellZ = (z : ℤ) := by
        constructor <;> omega
      rw [if_pos hcond]
      have hzlen : f.cellZ.toNat < grid.length := by
        rw [hwf.1]
        omega
      have hrowlen : (grid.getD f.cellZ.toNat []).length = 160 := by
        rcases hrow with hr | hr
        · exact hr
        · omega
      unfold writeFtsCellNbpoly
      rw [← hzz, ← hxx]
      rw [getD_set_eq _ _ _ _ hzlen]
      rw [getD_set_eq _ _ _ _ (by rw [hrowlen]; omega)]
      cases hc : (grid.getD f.cellZ.toNat []).getD f.cellX.toNat none with
      | none => simp
      | some l => simp
    · have hcond : ¬ (f.cellX = (x : ℤ) ∧ f.cellZ = (z : ℤ)) := by
        intro hc
        apply hxx
        omega
      rw [if_neg hcond]
      unfold writeFtsCellNbpoly
      rw [← hzz]
      have hzlen : f.cellZ.toNat < grid.length := by
        rw [hwf.1]
        omega
      rw [getD_set_eq _ _ _ _ hzlen]
      rw [getD_set_ne _ _ _ _ _ hxx]
      omega
  · have hcond : ¬ (f.cellX = (x : ℤ) ∧ f.cellZ = (z : ℤ)) := by
      intro hc
      apply hzz
      omega
    rw [if_neg hcond]
    unfold writeFtsCellNbpoly
    rw [getD_set_ne _ _ _ _ _ hzz]
    omega

lemma reconstruct_count_aux (fs : List ConvFace) :
    ∀ (grid : List (List (Option (List ConvFace)))), GridWF grid →
      (∀ f ∈ fs, 0 ≤ f.cellX ∧ f.cellX < 160 ∧ 0 ≤ f.cellZ ∧ f.cellZ < 160) →
      ∀ (z x : ℕ), z < 160 → x < 160 →
      writeFtsCellNbpoly (fs.foldl placeFace grid) z x
        = writeFtsCellNbpoly grid z x + countCellFaces fs (x : ℤ) (z : ℤ) := by
  induction fs with
  | nil =>
      intro grid _ _ z x _ _
      simp [countCellFaces]
  | cons f fs ih =>
      intro grid hwf hrange z x hz hx
      rw [List.foldl_cons]
      rw [ih _ (gridWF_placeFace _ _ hwf)
        (fun g hg => hrange g (List.mem_cons_of_mem f hg)) z x hz hx]
      rw [nbpoly_placeFace _ _ _ _ hwf hz hx (hrange f (List.mem_cons_self f fs))]
      rw [countCellFaces_cons]
      by_cases hc : f.cellX = (x : ℤ) ∧ f.cellZ = (z : ℤ)
      · rw [if_pos hc]
        omega
      · rw [if_neg hc]
        omega

lemma reconstruct_cell_count (faces : List ConvFace)
    (hrange : ∀ f ∈ faces, 0 ≤ f.cellX ∧ f.cellX < 160 ∧ 0 ≤ f.cellZ ∧ f.cellZ < 160)
    (z x : ℕ) (hz : z < 160) (hx : x < 160) :
    writeFtsCellNbpoly (reconstructCellGrid faces) z x
      = countCellFaces faces (x : ℤ) (z : ℤ) := by
  unfold reconstructCellGrid
  have hwf0 : GridWF (List.replicate 160 (List.replicate 160 none)) := by
    constructor
    · simp
    · intro row hrow
      rw [List.eq_of_mem_replicate hrow]
      simp
  rw [reconstruct_count_aux faces _ hwf0 hrange z x hz hx]
  have h0 : writeFtsCellNbpoly
      (List.replicate 160 (List.replicate 160 (none : Option (List ConvFace)))) z x = 0 := by
    unfold writeFtsCellNbpoly
    rw [getD_replicate, if_pos hz, getD_replicate, if_pos hx]
  rw [h0]
  omega

/-- C5 amended: the scene encoder itself copies room polygon references from
the record; regeneration is done by the export caller in
`_rebuildRoomPolygonReferences`, and after that rebuild every encoded room
reference `(px, py, idx)` has a nonnegative index strictly below both the
number of faces in cell `(px, py)` and the polygon count that
`_reconstructCellGrid` plus `write_fts` write for that cell. -/
theorem room_refs_c5_amended (faces : List ConvFace) (roomData : List RoomEntry)
    (hrange : ∀ f ∈ faces, 0 ≤ f.cellX ∧ f.cellX < 160 ∧ 0 ≤ f.cellZ ∧ f.cellZ < 160)
    (ref : EpData) (href : ref ∈ writeFtsRoomRefs (rebuildRoomData faces roomData)) :
    0 ≤ ref.idx
      ∧ ref.idx < (countCellFaces faces ref.px ref.py : ℤ)
      ∧ ref.idx
          < (writeFtsCellNbpoly (reconstructCellGrid faces) ref.py.toNat ref.px.toNat : ℤ) := by
  rw [writeFtsRoomRefs_eq] at href
  rcases List.mem_flatMap.mp href with ⟨room, hroom, hrefr⟩
  unfold rebuildRoomData at hroom
  rcases List.mem_map.mp hroom with ⟨ri, _, hrieq⟩
  rw [← hrieq] at hrefr
  simp only at hrefr
  rcases roomRefs_mem faces _ ref hrefr with ⟨e, he, q, hq, _, hrefeq⟩
  obtain ⟨hbound, hcount⟩ := cellPolygons_entry faces e he
  have hqlt := hbound q hq
  have hpx : ref.px = e.1.1 := by rw [hrefeq]
  have hpy : ref.py = e.1.2 := by rw [hrefeq]
  have hidx : ref.idx = (q.2 : ℤ) := by rw [hrefeq]
  have hkeycount : q.2 < countCellFaces faces e.1.1 e.1.2 := hcount ▸ hqlt
  have hpos : 0 < countCellFaces faces e.1.1 e.1.2 := by omega
  have hface : ∃ f, f ∈ faces ∧ f.cellX = e.1.1 ∧ f.cellZ = e.1.2 := by
    unfold countCellFaces at hpos
    have hne : (faces.filter (fun f => f.cellX = e.1.1 ∧ f.cellZ = e.1.2)) ≠ [] := by
      intro hnil
      rw [hnil] at hpos
      simp at hpos
    rcases List.exists_mem_of_ne_nil _ hne with ⟨f0, hf0⟩
    rcases List.mem_filter.mp hf0 with ⟨hf0m, hf0p⟩
    have hf0p2 : f0.cellX = e.1.1 ∧ f0.cellZ = e.1.2 := by simpa using hf0p
    exact ⟨f0, hf0m, hf0p2⟩
  obtain ⟨f0, hf0mem, hf0x, hf0z⟩ := hface
  have hr0 := hrange f0 hf0mem
  have hex : 0 ≤ e.1.1 ∧ e.1.1 < 160 := by
    rw [← hf0x]
    exact ⟨hr0.1, hr0.2.1⟩
  have hez : 0 ≤ e.1.2 ∧ e.1.2 < 160 := by
    rw [← hf0z]
    exact ⟨hr0.2.2.1, hr0.2.2.2⟩
  refine ⟨?_, ?_, ?_⟩
  · rw [hidx]
    exact Int.natCast_nonneg q.2
  · rw [hidx, hpx, hpy]
    exact_mod_cast hkeycount
  · rw [hidx, hpx, hpy]
    rw [reconstruct_cell_count faces hrange e.1.2.toNat e.1.1.toNat (by omega) (by omega)]
    rw [Int.toNat_of_nonneg hex.1, Int.toNat_of_nonneg hez.1]
    exact_mod_cast hkeycount

/-- Closed witness for the amended C5 theorem: one face in cell (0,0) with
room id 2 and a three-room record yield a rebuilt reference with index 0,
strictly below both cell polygon counts. -/
theorem room_refs_c5_amended_witness :
    0 ≤ (⟨0, 0, 0, 0⟩ : EpData).idx
      ∧ (⟨0, 0, 0, 0⟩ : EpData).idx
          < (countCellFaces [⟨0, 0, 2⟩] (⟨0, 0, 0, 0⟩ : EpData).px
              (⟨0, 0, 0, 0⟩ : EpData).py : ℤ)
      ∧ (⟨0, 0, 0, 0⟩ : EpData).idx
          < (writeFtsCellNbpoly (reconstructCellGrid [⟨0, 0, 2⟩])
              (⟨0, 0, 0, 0⟩ : EpData).py.toNat (⟨0, 0, 0, 0⟩ : EpData).px.toNat : ℤ) :=
  room_refs_c5_amended [⟨0, 0, 2⟩] [dfltRoom, dfltRoom, dfltRoom] (by decide)
    ⟨0, 0, 0, 0⟩ (by decide)

/-! ### Animation codec: TeaSerializer (dataTea.py) -/

/-- Embeds `SavedVec3` (dataCommon) as consumed by the interpolation code:
three components, floats modelled as rationals. -/
structure SavedVec3 where
  x : ℚ
  y : ℚ
  z : ℚ
  deriving DecidableEq, Repr

/-- Embeds `ArxQuat` (dataCommon) as consumed by the interpolation code:
four components, floats modelled as rationals. -/
structure ArxQuat where
  w : ℚ
  x : ℚ
  y : ℚ
  z : ℚ
  deriving DecidableEq, Repr

/-- Embeds the `TeaFrame` named tuple (dataTea.py lines 113-116); group
transforms are kept as an opaque count since no verified claim reads their
contents. -/
structure TeaFrame where
  duration : ℚ
  flags : ℤ
  translation : Option SavedVec3
  rotation : Option ArxQuat
  groups : ℕ
  sampleName : Option (List ℕ)
  key_move : Bool
  key_orient : Bool
  key_morph : Bool
  master_key_frame : Bool
  key_frame : Bool
  info_frame : List ℕ
  deriving DecidableEq, Repr

/-- Default frame used for out-of-range list access in the model. -/
def dfltTeaFrame : TeaFrame :=
  ⟨1 / 24, -1, none, none, 0, none, false, false, false, false, false, []⟩

/-- Embeds the time_frame validation of `TeaSerializer.read` (dataTea.py
lines 183-192): a stored value strictly between 0 and 10 seconds (in
microseconds) becomes seconds; anything else becomes the 1/24 s fallback
with only a logged warning. -/
def durationOfTimeFrame (timeFrame : ℤ) : ℚ :=
  if 0 < timeFrame ∧ timeFrame < 10000000 then (timeFrame : ℚ) / 1000000
  else 1 / 24

/-- C10: the decoded keyframe duration is always strictly positive and
strictly below 10 seconds; a stored `time_frame` strictly between 0 and
10,000,000 microseconds is returned as `time_frame / 1,000,000` seconds,
while a zero, negative, or at-least-10-second value is replaced by the
fixed 1/24 s fallback, and the conversion is total so decode never aborts
on an out-of-range duration. -/
theorem tea_duration_c10 (tf : ℤ) :
    0 < durationOfTimeFrame tf
      ∧ durationOfTimeFrame tf < 10
      ∧ (0 < tf ∧ tf < 10000000 → durationOfTimeFrame tf = (tf : ℚ) / 1000000)
      ∧ (tf ≤ 0 ∨ 10000000 ≤ tf → durationOfTimeFrame tf = 1 / 24) := by
  unfold durationOfTimeFrame
  by_cases h : 0 < tf ∧ tf < 10000000
  · rw [if_pos h]
    refine ⟨?_, ?_, fun _ => rfl, fun hc => ?_⟩
    · apply div_pos
      · exact_mod_cast h.1
      · norm_num
    · rw [div_lt_iff (by norm_num)]
      have : (tf : ℚ) < 10000000 := by exact_mod_cast h.2
      linarith
    · rcases hc with hc | hc <;> omega
  · rw [if_neg h]
    refine ⟨by norm_num, by norm_num, fun hc => absurd hc h, fun _ => rfl⟩

/-- Closed witness for C10 at a representative in-range and out-of-range
stored value. -/
theorem tea_duration_c10_witness :
    (0 < durationOfTimeFrame 40000 ∧ durationOfTimeFrame 40000 = (40000 : ℚ) / 1000000)
      ∧ (0 < durationOfTimeFrame 10000000 ∧ durationOfTimeFrame 10000000 = 1 / 24) :=
  ⟨⟨(tea_duration_c10 40000).1, (tea_duration_c10 40000).2.2.1 (by decide)⟩,
   ⟨(tea_duration_c10 10000000).1, (tea_duration_c10 10000000).2.2.2 (Or.inr (by decide))⟩⟩

/-- One interpolation channel of the decoder: how to read, write and blend
the optional transform of a frame.  `_interpolate_translations` and
`_interpolate_rotations` (dataTea.py lines 307-416) are the two instances;
they differ only in these four operations. -/
structure Chan (V : Type) where
  get : TeaFrame → Option V
  set : TeaFrame → V → TeaFrame
  blend : ℚ → ℚ → V → V → V
  dflt : V

/-- Embeds the backward scan `k = i - 1; while k >= 0 and missing: k -= 1`
(dataTea.py lines 314-317 and 369-372). -/
def findPrevC {V : Type} (ch : Chan V) (fs : List TeaFrame) : ℕ → Option ℕ
  | 0 => none
  | k + 1 =>
      if (ch.get (fs.getD k dfltTeaFrame)).isSome then some k else findPrevC ch fs k

/-- Embeds the forward scan `j = i + 1; while j < len and missing: j += 1`
(dataTea.py lines 319-322 and 374-377). -/
def findNextC {V : Type} (ch : Chan V) (fs : List TeaFrame) (j : ℕ) : Option ℕ :=
  if j < fs.length then
    if (ch.get (fs.getD j dfltTeaFrame)).isSome then some j else findNextC ch fs (j + 1)
  else none
termination_by fs.length - j

/-- Embeds `_get_time_between_keyframes` (dataTea.py lines 418-429): the sum
of the durations of frames `startIdx .. endIdx - 1`, zero when the range is
empty. -/
def timeBetween (fs : List TeaFrame) (startIdx endIdx : ℕ) : ℚ :=
  if endIdx ≤ startIdx then 0
  else ((List.range' startIdx (endIdx - startIdx)).map
    (fun m => (fs.getD m dfltTeaFrame).duration)).sum

/-- Embeds the body of the interpolation loop for one frame index
(dataTea.py lines 312-357 and 367-413): when the channel is missing and
both scans succeed and the summed durations are positive, the frame is
replaced by a copy carrying the blended value `value(j)*r1 + value(k)*r2`
with `r1 = time(k,i)*tot` and `r2 = time(i,j)*tot`, `tot = 1/(r1+r2)`; the
local variables `r1`, `r2`, `tot` of the source are inlined. -/
def interpStep {V : Type} (ch : Chan V) (fs : List TeaFrame) (i : ℕ) : List TeaFrame :=
  match ch.get (fs.getD i dfltTeaFrame) with
  | some _ => fs
  | none =>
      match findPrevC ch fs i, findNextC ch fs (i + 1) with
      | some k, some j =>
          if 0 < timeBetween fs k i + timeBetween fs i j then
            fs.set i (ch.set (fs.getD i dfltTeaFrame)
              (ch.blend
                (timeBetween fs k i * (1 / (timeBetween fs k i + timeBetween fs i j)))
                (timeBetween fs i j * (1 / (timeBetween fs k i + timeBetween fs i j)))
                ((ch.get (fs.getD j dfltTeaFrame)).getD ch.dflt)
                ((ch.get (fs.getD k dfltTeaFrame)).getD ch.dflt)))
          else fs
      | _, _ => fs

/-- Embeds one full interpolation pass (`for i in range(len(frames))`). -/
def interpPass {V : Type} (ch : Chan V) (frames : List TeaFrame) : List TeaFrame :=
  (List.range frames.length).foldl (interpStep ch) frames

/-- The translation channel of `_interpolate_translations` (dataTea.py
lines 334-357): componentwise `trans_j * r1 + trans_k * r2`. -/
def transChan : Chan SavedVec3 where
  get := fun f => f.translation
  set := fun f v => { f with translation := some v }
  blend := fun r1 r2 vj vk =>
    ⟨vj.x * r1 + vk.x * r2, vj.y * r1 + vk.y * r2, vj.z * r1 + vk.z * r2⟩
  dflt := ⟨0, 0, 0⟩

/-- The rotation channel of `_interpolate_rotations` (dataTea.py lines
389-416): componentwise quaternion blend, not slerp. -/
def rotChan : Chan ArxQuat where
  get := fun f => f.rotation
  set := fun f v => { f with rotation := some v }
  blend := fun r1 r2 vj vk =>
    ⟨vj.w * r1 + vk.w * r2, vj.x * r1 + vk.x * r2,
     vj.y * r1 + vk.y * r2, vj.z * r1 + vk.z * r2⟩
  dflt := ⟨0, 0, 0, 0⟩

/-- Embeds `_interpolate_missing_transforms` (dataTea.py lines 272-305):
the translation pass, then the rotation pass. -/
def interpolateMissingTransforms (frames : List TeaFrame) : List TeaFrame :=
  interpPass rotChan (interpPass transChan frames)

lemma findPrevC_none_iff {V : Type} (ch : Chan V) (gs : List TeaFrame) (t : ℕ) :
    findPrevC ch gs t = none
      ↔ ∀ m, m < t → ch.get (gs.getD m dfltTeaFrame) = none := by
  induction t with
  | zero => simp [findPrevC]
  | succ t ih =>
      rw [findPrevC]
      by_cases hs : (ch.get (gs.getD t dfltTeaFrame)).isSome
      · rw [if_pos hs]
        constructor
        · intro h
          exact absurd h (Option.some_ne_none t)
        · intro h
          exfalso
          have h2 := h t (Nat.lt_succ_self t)
          rw [h2] at hs
          simp at hs
      · rw [if_neg hs]
        rw [ih]
        constructor
        · intro h m hm
          rcases Nat.lt_succ_iff_lt_or_eq.mp hm with hm | hm
          · exact h m hm
          · subst hm
            exact Option.not_isSome_iff_eq_none.mp hs
        · intro h m hm
          exact h m (Nat.lt_succ_of_lt hm)

lemma findPrevC_some_spec {V : Type} (ch : Chan V) (gs : List TeaFrame) (t k : ℕ)
    (h : findPrevC ch gs t = some k) :
    k < t ∧ (ch.get (gs.getD k dfltTeaFrame)).isSome
      ∧ ∀ r, k < r → r < t → ch.get (gs.getD r dfltTeaFrame) = none := by
  induction t with
  | zero => simp [findPrevC] at h
  | succ t ih =>
      rw [findPrevC] at h
      by_cases hs : (ch.get (gs.getD t dfltTeaFrame)).isSome
      · rw [if_pos hs] at h
        injection h with h2
        subst h2
        exact ⟨Nat.lt_succ_self _, hs, fun r hr1 hr2 => by omega⟩
      · rw [if_neg hs] at h
        obtain ⟨h1, h2, h3⟩ := ih h
        refine ⟨Nat.lt_succ_of_lt h1, h2, ?_⟩
        intro r hr1 hr2
        rcases Nat.lt_succ_iff_lt_or_eq.mp hr2 with hr | hr
        · exact h3 r hr1 hr
        · subst hr
          exact Option.not_isSome_iff_eq_none.mp hs

lemma findPrevC_some_of {V : Type} (ch : Chan V) (gs : List TeaFrame) (k t : ℕ)
    (hk : k < t) (hs : (ch.get (gs.getD k dfltTeaFrame)).isSome)
    (hmid : ∀ r, k < r → r < t → ch.get (gs.getD r dfltTeaFrame) = none) :
    findPrevC ch gs t = some k := by
  induction t with
  | zero => omega
  | succ t ih =>
      rw [findPrevC]
      by_cases hkt : k = t
      · subst hkt
        rw [if_pos hs]
      · have hklt : k < t := by omega
        have hnone : ch.get (gs.getD t dfltTeaFrame) = none :=
          hmid t hklt (Nat.lt_succ_self t)
        rw [if_neg (by rw [hnone]; simp)]
        exact ih hklt (fun r hr1 hr2 => hmid r hr1 (Nat.lt_succ_of_lt hr2))

lemma findNextC_none_iff {V : Type} (ch : Chan V) (gs : List TeaFrame) (s : ℕ) :
    findNextC ch gs s = none
      ↔ ∀ r, s ≤ r → r < gs.length → ch.get (gs.getD r dfltTeaFrame) = none := by
  have H : ∀ (n s : ℕ), gs.length - s ≤ n →
      (findNextC ch gs s = none
        ↔ ∀ r, s ≤ r → r < gs.length → ch.get (gs.getD r dfltTeaFrame) = none) := by
    intro n
    induction n with
    | zero =>
        intro s hs
        rw [findNextC, if_neg (by omega)]
        constructor
        · intro _ r hr1 hr2
          omega
        · intro _
          rfl
    | succ n ih =>
        intro s hs
        by_cases hlt : s < gs.length
        · rw [findNextC, if_pos hlt]
          by_cases hsome : (ch.get (gs.getD s dfltTeaFrame)).isSome
          · rw [if_pos hsome]
            constructor
            · intro h
              exact absurd h (Option.some_ne_none s)
            · intro h
              exfalso
              have h2 := h s (le_refl s) hlt
              rw [h2] at hsome
              simp at hsome
          · rw [if_neg hsome]
            rw [ih (s + 1) (by omega)]
            constructor
            · intro h r hr1 hr2
              rcases Nat.lt_or_ge s r with hx | hx
              · exact h r hx hr2
              · have hrx : r = s := by omega
                subst hrx
                exact Option.not_isSome_iff_eq_none.mp hsome
            · intro h r hr1 hr2
              exact h r (by omega) hr2
        · rw [findNextC, if_neg hlt]
          constructor
          · intro _ r hr1 hr2
            omega
          · intro _
            rfl
  exact H gs.length s (by omega)

lemma findNextC_some_spec {V : Type} (ch : Chan V) (gs : List TeaFrame) (s j : ℕ)
    (h : findNextC ch gs s = some j) :
    s ≤ j ∧ j < gs.length ∧ (ch.get (gs.getD j dfltTeaFrame)).isSome
      ∧ ∀ r, s ≤ r → r < j → ch.get (gs.getD r dfltTeaFrame) = none := by
  have H : ∀ (n s : ℕ), gs.length - s ≤ n → findNextC ch gs s = some j →
      s ≤ j ∧ j < gs.length ∧ (ch.get (gs.getD j dfltTeaFrame)).isSome
        ∧ ∀ r, s ≤ r → r < j → ch.get (gs.getD r dfltTeaFrame) = none := by
    intro n
    induction n with
    | zero =>
        intro s hs hfind
        rw [findNextC, if_neg (by omega)] at hfind
        exact absurd hfind (by simp)
    | succ n ih =>
        intro s hs hfind
        by_cases hlt : s < gs.length
        · rw [findNextC, if_pos hlt] at hfind
          by_cases hsome : (ch.get (gs.getD s dfltTeaFrame)).isSome
          · rw [if_pos hsome] at hfind
            injection hfind with h2
            subst h2
            exact ⟨le_refl _, hlt, hsome, fun r hr1 hr2 => by omega⟩
          · rw [if_neg hsome] at hfind
            obtain ⟨h1, h2, h3, h4⟩ := ih (s + 1) (by omega) hfind
            refine ⟨by omega, h2, h3, ?_⟩
            intro r hr1 hr2
            rcases Nat.lt_or_ge s r with hx | hx
            · exact h4 r hx hr2
            · have hrx : r = s := by omega
              subst hrx
              exact Option.not_isSome_iff_eq_none.mp hsome
        · rw [findNextC, if_neg hlt] at hfind
          exact absurd hfind (by simp)
  exact H gs.length s (by omega) h

lemma findNextC_some_of {V : Type} (ch : Chan V) (gs : List TeaFrame) (s j : ℕ)
    (hsj : s ≤ j) (hj : j < gs.length)
    (hsome : (ch.get (gs.getD j dfltTeaFrame)).isSome)
    (hmid : ∀ r, s ≤ r → r < j → ch.get (gs.getD r dfltTeaFrame) = none) :
    findNextC ch gs s = some j := by
  have H : ∀ (n s : ℕ), gs.length - s ≤ n → s ≤ j →
      (∀ r, s ≤ r → r < j → ch.get (gs.getD r dfltTeaFrame) = none) →
      findNextC ch gs s = some j := by
    intro n
    induction n with
    | zero =>
        intro s hs hsj2 hmid2
        omega
    | succ n ih =>
        intro s hs hsj2 hmid2
        have hlt : s < gs.length := by omega
        rw [findNextC, if_pos hlt]
        by_cases hxj : s = j
        · subst hxj
          rw [if_pos hsome]
        · have hxlt : s < j := by omega
          have hnone := hmid2 s (le_refl s) hxlt
          rw [if_neg (by rw [hnone]; simp)]
          exact ih (s + 1) (by omega) (by omega)
            (fun r hr1 hr2 => hmid2 r (by omega) hr2)
  exact H gs.length s (by omega) hsj hmid

lemma timeBetween_eq_sum (gs : List TeaFrame) (a b : ℕ) :
    timeBetween gs a b
      = ((List.range' a (b - a)).map (fun m => (gs.getD m dfltTeaFrame).duration)).sum := by
  unfold timeBetween
  split
  · rename_i hle
    rw [Nat.sub_eq_zero_of_le hle]
    rfl
  · rfl

lemma timeBetween_congr (gs gs' : List TeaFrame) (a b : ℕ)
    (h : ∀ m, (gs.getD m dfltTeaFrame).duration = (gs'.getD m dfltTeaFrame).duration) :
    timeBetween gs a b = timeBetween gs' a b := by
  rw [timeBetween_eq_sum, timeBetween_eq_sum]
  congr 1
  apply List.map_congr_left
  intro m _
  exact h m

lemma timeBetween_split (gs : List TeaFrame) (a b c : ℕ) (hab : a ≤ b) (hbc : b ≤ c) :
    timeBetween gs a c = timeBetween gs a b + timeBetween gs b c := by
  rw [timeBetween_eq_sum, timeBetween_eq_sum, timeBetween_eq_sum]
  have hr : List.range' a (c - a) = List.range' a (b - a) ++ List.range' b (c - b) := by
    have happ := List.range'_append a (b - a) (c - b) 1
    have h1 : a + 1 * (b - a) = b := by omega
    have h2 : c - b + (b - a) = c - a := by omega
    rw [h1, h2] at happ
    exact happ.symm
  rw [hr, List.map_append, List.sum_append]

lemma timeBetween_pos (gs : List TeaFrame) (a b : ℕ)
    (hd : ∀ f ∈ gs, 0 < f.duration) (hab : a < b) (hb : b ≤ gs.length) :
    0 < timeBetween gs a b := by
  rw [timeBetween_eq_sum]
  apply List.sum_pos
  · intro x hx
    rcases List.mem_map.mp hx with ⟨m, hm, hxm⟩
    have hmr := List.mem_range'_1.mp hm
    have hmlt : m < gs.length := by omega
    rw [← hxm, List.getD_eq_getElem _ _ hmlt]
    exact hd _ (List.getElem_mem hmlt)
  · intro hnil
    have hlen := congrArg List.length hnil
    simp only [List.length_map, List.length_range', List.length_nil] at hlen
    omega

/-- Closed form for one slot of the sequential in-place interpolation pass,
phrased against the original frame list: a frame stays unchanged when its
channel is present or when one of the two scans over the original list
fails, and otherwise becomes a copy carrying the blend of the original
neighbouring carrier values weighted by the original duration sums.  The
invariant lemma below shows the stateful loop of the source computes
exactly this. -/
def intendedFrame {V : Type} (ch : Chan V) (fs : List TeaFrame) (i : ℕ) : TeaFrame :=
  match ch.get (fs.getD i dfltTeaFrame), findPrevC ch fs i, findNextC ch fs (i + 1) with
  | none, some k, some j =>
      ch.set (fs.getD i dfltTeaFrame)
        (ch.blend
          (timeBetween fs k i / (timeBetween fs k i + timeBetween fs i j))
          (timeBetween fs i j / (timeBetween fs k i + timeBetween fs i j))
          ((ch.get (fs.getD j dfltTeaFrame)).getD ch.dflt)
          ((ch.get (fs.getD k dfltTeaFrame)).getD ch.dflt))
  | _, _, _ => fs.getD i dfltTeaFrame

lemma intendedFrame_of_some {V : Type} (ch : Chan V) (fs : List TeaFrame) (i : ℕ)
    (h : (ch.get (fs.getD i dfltTeaFrame)).isSome) :
    intendedFrame ch fs i = fs.getD i dfltTeaFrame := by
  unfold intendedFrame
  rcases Option.isSome_iff_exists.mp h with ⟨v, hv⟩
  rw [hv]

lemma intendedFrame_of_prev_none {V : Type} (ch : Chan V) (fs : List TeaFrame) (i : ℕ)
    (hg : ch.get (fs.getD i dfltTeaFrame) = none)
    (hp : findPrevC ch fs i = none) :
    intendedFrame ch fs i = fs.getD i dfltTeaFrame := by
  unfold intendedFrame
  rw [hg, hp]

lemma intendedFrame_of_next_none {V : Type} (ch : Chan V) (fs : List TeaFrame) (i k : ℕ)
    (hg : ch.get (fs.getD i dfltTeaFrame) = none)
    (hpk : findPrevC ch fs i = some k)
    (hn : findNextC ch fs (i + 1) = none) :
    intendedFrame ch fs i = fs.getD i dfltTeaFrame := by
  unfold intendedFrame
  rw [hg, hpk, hn]

lemma intendedFrame_of_scans {V : Type} (ch : Chan V) (fs : List TeaFrame) (i k j : ℕ)
    (hg : ch.get (fs.getD i dfltTeaFrame) = none)
    (hpk : findPrevC ch fs i = some k)
    (hnj : findNextC ch fs (i + 1) = some j) :
    intendedFrame ch fs i
      = ch.set (fs.getD i dfltTeaFrame)
          (ch.blend
            (timeBetween fs k i / (timeBetween fs k i + timeBetween fs i j))
            (timeBetween fs i j / (timeBetween fs k i + timeBetween fs i j))
            ((ch.get (fs.getD j dfltTeaFrame)).getD ch.dflt)
            ((ch.get (fs.getD k dfltTeaFrame)).getD ch.dflt)) := by
  unfold intendedFrame
  rw [hg, hpk, hnj]

lemma intendedFrame_duration {V : Type} (ch : Chan V)
    (hdur_set : ∀ f v, (ch.set f v).duration = f.duration)
    (fs : List TeaFrame) (i : ℕ) :
    (intendedFrame ch fs i).duration = (fs.getD i dfltTeaFrame).duration := by
  unfold intendedFrame
  cases hg : ch.get (fs.getD i dfltTeaFrame) with
  | some _v => rfl
  | none =>
      cases hp : findPrevC ch fs i with
      | none => rfl
      | some k =>
          cases hn : findNextC ch fs (i + 1) with
          | none => rfl
          | some j => exact hdur_set _ _

lemma interpStep_of_some {V : Type} (ch : Chan V) (fs : List TeaFrame) (i : ℕ)
    (h : (ch.get (fs.getD i dfltTeaFrame)).isSome) :
    interpStep ch fs i = fs := by
  unfold interpStep
  rcases Option.isSome_iff_exists.mp h with ⟨v, hv⟩
  rw [hv]

lemma interpStep_of_prev_none {V : Type} (ch : Chan V) (fs : List TeaFrame) (i : ℕ)
    (hg : ch.get (fs.getD i dfltTeaFrame) = none)
    (hp : findPrevC ch fs i = none) :
    interpStep ch fs i = fs := by
  unfold interpStep
  rw [hg, hp]

lemma interpStep_of_next_none {V : Type} (ch : Chan V) (fs : List TeaFrame) (i k : ℕ)
    (hg : ch.get (fs.getD i dfltTeaFrame) = none)
    (hpk : findPrevC ch fs i = some k)
    (hn : findNextC ch fs (i + 1) = none) :
    interpStep ch fs i = fs := by
  unfold interpStep
  rw [hg, hpk, hn]

lemma interpStep_of_scans {V : Type} (ch : Chan V) (fs : List TeaFrame) (i k j : ℕ)
    (hg : ch.get (fs.getD i dfltTeaFrame) = none)
    (hpk : findPrevC ch fs i = some k)
    (hnj : findNextC ch fs (i + 1) = some j)
    (hpos : 0 < timeBetween fs k i + timeBetween fs i j) :
    interpStep ch fs i
      = fs.set i (ch.set (fs.getD i dfltTeaFrame)
          (ch.blend
            (timeBetween fs k i * (1 / (timeBetween fs k i + timeBetween fs i j)))
            (timeBetween fs i j * (1 / (timeBetween fs k i + timeBetween fs i j)))
            ((ch.get (fs.getD j dfltTeaFrame)).getD ch.dflt)
            ((ch.get (fs.getD k dfltTeaFrame)).getD ch.dflt))) := by
  unfold interpStep
  rw [hg, hpk, hnj]
  show (if 0 < timeBetween fs k i + timeBetween fs i j then
      fs.set i (ch.set (fs.getD i dfltTeaFrame)
        (ch.blend
          (timeBetween fs k i * (1 / (timeBetween fs k i + timeBetween fs i j)))
          (timeBetween fs i j * (1 / (timeBetween fs k i + timeBetween fs i j)))
          ((ch.get (fs.getD j dfltTeaFrame)).getD ch.dflt)
          ((ch.get (fs.getD k dfltTeaFrame)).getD ch.dflt)))
    else fs) = _
  rw [if_pos hpos]

lemma blendCoeff_one (p q s : ℚ) (hp : 0 < p) (hq : 0 < q) (hs : 0 < s) :
    q * (1 / (q + s)) + p / (p + (q + s)) * (s * (1 / (q + s)))
      = (p + q) / (p + q + s) := by
  have h1 : q + s ≠ 0 := ne_of_gt (by linarith)
  have h2 : p + (q + s) ≠ 0 := ne_of_gt (by linarith)
  have h3 : p + q + s ≠ 0 := ne_of_gt (by linarith)
  field_simp
  ring

lemma blendCoeff_two (p q s : ℚ) (hp : 0 < p) (hq : 0 < q) (hs : 0 < s) :
    (q + s) / (p + (q + s)) * (s * (1 / (q + s))) = s / (p + q + s) := by
  have h1 : q + s ≠ 0 := ne_of_gt (by linarith)
  have h2 : p + (q + s) ≠ 0 := ne_of_gt (by linarith)
  have h3 : p + q + s ≠ 0 := ne_of_gt (by linarith)
  field_simp
  ring

/-- Invariant of the sequential in-place interpolation loop: after the
first `t` iterations the list keeps its length, every slot below `t`
carries its closed-form interpolated value expressed over the original
list, and every slot at or beyond `t` is still the original frame.  The
channel laws say writing a value makes the channel present, preserves the
duration, and that nested blends collapse (true of both componentwise
channels); positivity of the durations discharges the loop's guard. -/
lemma interpPass_state {V : Type} (ch : Chan V)
    (hget_set : ∀ f v, ch.get (ch.set f v) = some v)
    (hdur_set : ∀ f v, (ch.set f v).duration = f.duration)
    (hblend : ∀ r1 r2 a1 a2 vj vk,
      ch.blend r1 r2 vj (ch.blend a1 a2 vj vk)
        = ch.blend (r1 + a1 * r2) (a2 * r2) vj vk)
    (fs : List TeaFrame) (hdur : ∀ f ∈ fs, 0 < f.duration) :
    ∀ t, t ≤ fs.length →
      ((List.range t).foldl (interpStep ch) fs).length = fs.length
        ∧ ∀ m, ((List.range t).foldl (interpStep ch) fs).getD m dfltTeaFrame
            = if m < t then intendedFrame ch fs m else fs.getD m dfltTeaFrame := by
  intro t
  induction t with
  | zero =>
      intro _
      refine ⟨rfl, fun m => ?_⟩
      rw [if_neg (by omega), List.range_zero]
      rfl
  | succ t ih =>
      intro ht
      obtain ⟨ihlen, ihm⟩ := ih (by omega)
      have hfold : (List.range (t + 1)).foldl (interpStep ch) fs
          = interpStep ch ((List.range t).foldl (interpStep ch) fs) t := by
        rw [List.range_succ, List.foldl_append, List.foldl_cons, List.foldl_nil]
      set S := (List.range t).foldl (interpStep ch) fs with hS
      rw [hfold]
      have hS_ge : ∀ m, t ≤ m → S.getD m dfltTeaFrame = fs.getD m dfltTeaFrame := by
        intro m hm
        rw [ihm m, if_neg (by omega)]
      have hS_dur : ∀ m, (S.getD m dfltTeaFrame).duration
          = (fs.getD m dfltTeaFrame).duration := by
        intro m
        rw [ihm m]
        by_cases hm : m < t
        · rw [if_pos hm]
          exact intendedFrame_duration ch hdur_set fs m
        · rw [if_neg hm]
      have hTB : ∀ a b, timeBetween S a b = timeBetween fs a b := fun a b =>
        timeBetween_congr S fs a b hS_dur
      cases hgt : ch.get (fs.getD t dfltTeaFrame) with
      | some _v =>
          have hstep : interpStep ch S t = S :=
            interpStep_of_some ch S t (by rw [hS_ge t (le_refl t), hgt]; rfl)
          refine ⟨by rw [hstep]; exact ihlen, fun m => ?_⟩
          rw [hstep, ihm m]
          by_cases hm : m < t
          · rw [if_pos hm, if_pos (by omega)]
          · by_cases hmt : m = t
            · subst hmt
              rw [if_neg hm, if_pos (by omega),
                intendedFrame_of_some ch fs m (by rw [hgt]; rfl)]
            · rw [if_neg hm, if_neg (by omega)]
      | none =>
          cases hko : findPrevC ch fs t with
          | none =>
              have hkn : findPrevC ch S t = none := by
                have hfs0 := (findPrevC_none_iff ch fs t).mp hko
                rw [findPrevC_none_iff]
                intro m hm
                have hSm : S.getD m dfltTeaFrame = fs.getD m dfltTeaFrame := by
                  rw [ihm m, if_pos hm,
                    intendedFrame_of_prev_none ch fs m (hfs0 m hm)
                      ((findPrevC_none_iff ch fs m).mpr
                        (fun r hr => hfs0 r (by omega)))]
                rw [hSm]
                exact hfs0 m hm
              have hstep : interpStep ch S t = S :=
                interpStep_of_prev_none ch S t
                  (by rw [hS_ge t (le_refl t)]; exact hgt) hkn
              refine ⟨by rw [hstep]; exact ihlen, fun m => ?_⟩
              rw [hstep, ihm m]
              by_cases hm : m < t
              · rw [if_pos hm, if_pos (by omega)]
              · by_cases hmt : m = t
                · subst hmt
                  rw [if_neg hm, if_pos (by omega),
                    intendedFrame_of_prev_none ch fs m hgt hko]
                · rw [if_neg hm, if_neg (by omega)]
          | some k0 =>
              obtain ⟨hk1, hk2, hk3⟩ := findPrevC_some_spec ch fs t k0 hko
              have hSk0 : S.getD k0 dfltTeaFrame = fs.getD k0 dfltTeaFrame := by
                rw [ihm k0, if_pos hk1, intendedFrame_of_some ch fs k0 hk2]
              cases hjo : findNextC ch fs (t + 1) with
              | none =>
                  have hfsnext := (findNextC_none_iff ch fs (t + 1)).mp hjo
                  have hmid_eq : ∀ m, k0 < m → m < t →
                      S.getD m dfltTeaFrame = fs.getD m dfltTeaFrame := by
                    intro m hm1 hm2
                    have hp : findPrevC ch fs m = some k0 :=
                      findPrevC_some_of ch fs k0 m hm1 hk2
                        (fun r hr1 hr2 => hk3 r hr1 (by omega))
                    have hn : findNextC ch fs (m + 1) = none := by
                      rw [findNextC_none_iff]
                      intro r hr1 hr2
                      by_cases hrt : r < t
                      · exact hk3 r (by omega) hrt
                      · by_cases hrt2 : r = t
                        · subst hrt2
                          exact hgt
                        · exact hfsnext r (by omega) hr2
                    rw [ihm m, if_pos hm2,
                      intendedFrame_of_next_none ch fs m k0 (hk3 m hm1 hm2) hp hn]
                  have hSnext : findNextC ch S (t + 1) = none := by
                    rw [findNextC_none_iff]
                    intro r hr1 hr2
                    rw [hS_ge r (by omega)]
                    exact hfsnext r hr1 (by rw [← ihlen]; exact hr2)
                  have hkn : findPrevC ch S t = some k0 := by
                    apply findPrevC_some_of ch S k0 t hk1
                    · rw [hSk0]
                      exact hk2
                    · intro r hr1 hr2
                      rw [hmid_eq r hr1 hr2]
                      exact hk3 r hr1 hr2
                  have hstep : interpStep ch S t = S :=
                    interpStep_of_next_none ch S t k0
                      (by rw [hS_ge t (le_refl t)]; exact hgt) hkn hSnext
                  refine ⟨by rw [hstep]; exact ihlen, fun m => ?_⟩
                  rw [hstep, ihm m]
                  by_cases hm : m < t
                  · rw [if_pos hm, if_pos (by omega)]
                  · by_cases hmt : m = t
                    · subst hmt
                      rw [if_neg hm, if_pos (by omega),
                        intendedFrame_of_next_none ch fs m k0 hgt hko hjo]
                    · rw [if_neg hm, if_neg (by omega)]
              | some j0 =>
                  obtain ⟨hj1, hj2, hj3, hj4⟩ := findNextC_some_spec ch fs (t + 1) j0 hjo
                  have hq : 0 < timeBetween fs (t - 1) t :=
                    timeBetween_pos fs (t - 1) t hdur (by omega) (by omega)
                  have hsv : 0 < timeBetween fs t j0 :=
                    timeBetween_pos fs t j0 hdur (by omega) (by omega)
                  have hfill : ∀ m, k0 < m → m < t →
                      S.getD m dfltTeaFrame
                        = ch.set (fs.getD m dfltTeaFrame)
                            (ch.blend
                              (timeBetween fs k0 m
                                / (timeBetween fs k0 m + timeBetween fs m j0))
                              (timeBetween fs m j0
                                / (timeBetween fs k0 m + timeBetween fs m j0))
                              ((ch.get (fs.getD j0 dfltTeaFrame)).getD ch.dflt)
                              ((ch.get (fs.getD k0 dfltTeaFrame)).getD ch.dflt)) := by
                    intro m hm1 hm2
                    have hp : findPrevC ch fs m = some k0 :=
                      findPrevC_some_of ch fs k0 m hm1 hk2
                        (fun r hr1 hr2 => hk3 r hr1 (by omega))
                    have hn : findNextC ch fs (m + 1) = some j0 := by
                      apply findNextC_some_of ch fs (m + 1) j0 (by omega) hj2 hj3
                      intro r hr1 hr2
                      by_cases hrt : r < t
                      · exact hk3 r (by omega) hrt
                      · by_cases hrt2 : r = t
                        · subst hrt2
                          exact hgt
                        · exact hj4 r (by omega) hr2
                    rw [ihm m, if_pos hm2,
                      intendedFrame_of_scans ch fs m k0 j0 (hk3 m hm1 hm2) hp hn]
                  have hkn : findPrevC ch S t = some (t - 1) := by
                    apply findPrevC_some_of ch S (t - 1) t (by omega)
                    · by_cases hteq : t - 1 = k0
                      · rw [hteq, hSk0]
                        exact hk2
                      · rw [hfill (t - 1) (by omega) (by omega), hget_set]
                        rfl
                    · intro r hr1 hr2
                      omega
                  have hnext : findNextC ch S (t + 1) = some j0 := by
                    apply findNextC_some_of ch S (t + 1) j0 hj1
                    · rw [ihlen]
                      exact hj2
                    · rw [hS_ge j0 (by omega)]
                      exact hj3
                    · intro r hr1 hr2
                      rw [hS_ge r (by omega)]
                      exact hj4 r hr1 hr2
                  have hposS : 0 < timeBetween S (t - 1) t + timeBetween S t j0 := by
                    rw [hTB (t - 1) t, hTB t j0]
                    linarith
                  have hstep := interpStep_of_scans ch S t (t - 1) j0
                    (by rw [hS_ge t (le_refl t)]; exact hgt) hkn hnext hposS
                  refine ⟨by rw [hstep, List.length_set]; exact ihlen, fun m => ?_⟩
                  rw [hstep]
                  by_cases hmt : m = t
                  · subst hmt
                    rw [getD_set_eq _ _ _ _ (by rw [ihlen]; omega), if_pos (by omega),
                      intendedFrame_of_scans ch fs m k0 j0 hgt hko hjo,
                      hS_ge m (le_refl m), hTB (m - 1) m, hTB m j0,
                      hS_ge j0 (by omega)]
                    by_cases hteq : m - 1 = k0
                    · rw [hteq, hSk0, mul_one_div, mul_one_div]
                    · have hp0 : 0 < timeBetween fs k0 (m - 1) :=
                        timeBetween_pos fs k0 (m - 1) hdur (by omega) (by omega)
                      have hsplit1 : timeBetween fs k0 m
                          = timeBetween fs k0 (m - 1) + timeBetween fs (m - 1) m :=
                        timeBetween_split fs k0 (m - 1) m (by omega) (by omega)
                      have hsplit2 : timeBetween fs (m - 1) j0
                          = timeBetween fs (m - 1) m + timeBetween fs m j0 :=
                        timeBetween_split fs (m - 1) m j0 (by omega) (by omega)
                      rw [hfill (m - 1) (by omega) (by omega), hget_set,
                        Option.getD_some, hblend, hsplit1, hsplit2,
                        blendCoeff_one (timeBetween fs k0 (m - 1))
                          (timeBetween fs (m - 1) m) (timeBetween fs m j0) hp0 hq hsv,
                        blendCoeff_two (timeBetween fs k0 (m - 1))
                          (timeBetween fs (m - 1) m) (timeBetween fs m j0) hp0 hq hsv]
                  · rw [getD_set_ne _ _ _ _ _ (fun he => hmt he.symm), ihm m]
                    by_cases hm : m < t
                    · rw [if_pos hm, if_pos (by omega)]
                    · rw [if_neg hm, if_neg (by omega)]

lemma interpPass_length {V : Type} (ch : Chan V)
    (hget_set : ∀ f v, ch.get (ch.set f v) = some v)
    (hdur_set : ∀ f v, (ch.set f v).duration = f.duration)
    (hblend : ∀ r1 r2 a1 a2 vj vk,
      ch.blend r1 r2 vj (ch.blend a1 a2 vj vk)
        = ch.blend (r1 + a1 * r2) (a2 * r2) vj vk)
    (fs : List TeaFrame) (hdur : ∀ f ∈ fs, 0 < f.duration) :
    (interpPass ch fs).length = fs.length :=
  (interpPass_state ch hget_set hdur_set hblend fs hdur fs.length (le_refl _)).1

lemma interpPass_getD {V : Type} (ch : Chan V)
    (hget_set : ∀ f v, ch.get (ch.set f v) = some v)
    (hdur_set : ∀ f v, (ch.set f v).duration = f.duration)
    (hblend : ∀ r1 r2 a1 a2 vj vk,
      ch.blend r1 r2 vj (ch.blend a1 a2 vj vk)
        = ch.blend (r1 + a1 * r2) (a2 * r2) vj vk)
    (fs : List TeaFrame) (hdur : ∀ f ∈ fs, 0 < f.duration) (m : ℕ) :
    (interpPass ch fs).getD m dfltTeaFrame
      = if m < fs.length then intendedFrame ch fs m else fs.getD m dfltTeaFrame :=
  (interpPass_state ch hget_set hdur_set hblend fs hdur fs.length (le_refl _)).2 m

/-- Fields the channel's `set` does not touch are unchanged by a whole
interpolation pass, at every index. -/
lemma interpPass_preserves {V β : Type} (ch : Chan V) (p : TeaFrame → β)
    (hp : ∀ f v, p (ch.set f v) = p f)
    (hget_set : ∀ f v, ch.get (ch.set f v) = some v)
    (hdur_set : ∀ f v, (ch.set f v).duration = f.duration)
    (hblend : ∀ r1 r2 a1 a2 vj vk,
      ch.blend r1 r2 vj (ch.blend a1 a2 vj vk)
        = ch.blend (r1 + a1 * r2) (a2 * r2) vj vk)
    (fs : List TeaFrame) (hdur : ∀ f ∈ fs, 0 < f.duration) (m : ℕ) :
    p ((interpPass ch fs).getD m dfltTeaFrame) = p (fs.getD m dfltTeaFrame) := by
  rw [interpPass_getD ch hget_set hdur_set hblend fs hdur m]
  by_cases hm : m < fs.length
  · rw [if_pos hm]
    unfold intendedFrame
    cases hg : ch.get (fs.getD m dfltTeaFrame) with
    | some _v => rfl
    | none =>
        cases hpv : findPrevC ch fs m with
        | none => rfl
        | some k =>
            cases hn : findNextC ch fs (m + 1) with
            | none => rfl
            | some j => exact hp _ _
  · rw [if_neg hm]

lemma transChan_get_set : ∀ f v, transChan.get (transChan.set f v) = some v :=
  fun _ _ => rfl

lemma transChan_dur_set : ∀ f v, (transChan.set f v).duration = f.duration :=
  fun _ _ => rfl

lemma transChan_blend_assoc : ∀ (r1 r2 a1 a2 : ℚ) (vj vk : SavedVec3),
    transChan.blend r1 r2 vj (transChan.blend a1 a2 vj vk)
      = transChan.blend (r1 + a1 * r2) (a2 * r2) vj vk := by
  intro r1 r2 a1 a2 vj vk
  simp only [transChan, SavedVec3.mk.injEq]
  refine ⟨by ring, by ring, by ring⟩

lemma rotChan_get_set : ∀ f v, rotChan.get (rotChan.set f v) = some v :=
  fun _ _ => rfl

lemma rotChan_dur_set : ∀ f v, (rotChan.set f v).duration = f.duration :=
  fun _ _ => rfl

lemma rotChan_blend_assoc : ∀ (r1 r2 a1 a2 : ℚ) (vj vk : ArxQuat),
    rotChan.blend r1 r2 vj (rotChan.blend a1 a2 vj vk)
      = rotChan.blend (r1 + a1 * r2) (a2 * r2) vj vk := by
  intro r1 r2 a1 a2 vj vk
  simp only [rotChan, ArxQuat.mk.injEq]
  refine ⟨by ring, by ring, by ring, by ring⟩

lemma transChan_set_translation (f : TeaFrame) (v : SavedVec3) :
    (transChan.set f v).translation = some v := rfl

lemma rotChan_set_rotation (f : TeaFrame) (v : ArxQuat) :
    (rotChan.set f v).rotation = some v := rfl

lemma interpPass_durations {V : Type} (ch : Chan V)
    (hget_set : ∀ f v, ch.get (ch.set f v) = some v)
    (hdur_set : ∀ f v, (ch.set f v).duration = f.duration)
    (hblend : ∀ r1 r2 a1 a2 vj vk,
      ch.blend r1 r2 vj (ch.blend a1 a2 vj vk)
        = ch.blend (r1 + a1 * r2) (a2 * r2) vj vk)
    (fs : List TeaFrame) (hdur : ∀ f ∈ fs, 0 < f.duration) :
    ∀ f ∈ interpPass ch fs, 0 < f.duration := by
  intro f hf
  rcases List.mem_iff_getElem.mp hf with ⟨m, hm, hfm⟩
  have hlen : (interpPass ch fs).length = fs.length :=
    interpPass_length ch hget_set hdur_set hblend fs hdur
  have hg : (interpPass ch fs).getD m dfltTeaFrame = f := by
    rw [List.getD_eq_getElem _ _ hm]
    exact hfm
  have hd : f.duration = (fs.getD m dfltTeaFrame).duration := by
    rw [← hg]
    exact interpPass_preserves ch (fun f => f.duration) (fun f v => hdur_set f v)
      hget_set hdur_set hblend fs hdur m
  have hmf : m < fs.length := by
    rw [← hlen]
    exact hm
  rw [hd, List.getD_eq_getElem _ _ hmf]
  exact hdur _ (List.getElem_mem hmf)

lemma transPass_rotation (fs : List TeaFrame) (hdur : ∀ f ∈ fs, 0 < f.duration) (m : ℕ) :
    ((interpPass transChan fs).getD m dfltTeaFrame).rotation
      = (fs.getD m dfltTeaFrame).rotation :=
  interpPass_preserves transChan (fun f => f.rotation) (fun _ _ => rfl)
    transChan_get_set transChan_dur_set transChan_blend_assoc fs hdur m

lemma transPass_duration (fs : List TeaFrame) (hdur : ∀ f ∈ fs, 0 < f.duration) (m : ℕ) :
    ((interpPass transChan fs).getD m dfltTeaFrame).duration
      = (fs.getD m dfltTeaFrame).duration :=
  interpPass_preserves transChan (fun f => f.duration) (fun _ _ => rfl)
    transChan_get_set transChan_dur_set transChan_blend_assoc fs hdur m

lemma rotPass_translation (fs : List TeaFrame) (hdur : ∀ f ∈ fs, 0 < f.duration) (m : ℕ) :
    ((interpPass rotChan fs).getD m dfltTeaFrame).translation
      = (fs.getD m dfltTeaFrame).translation :=
  interpPass_preserves rotChan (fun f => f.translation) (fun _ _ => rfl)
    rotChan_get_set rotChan_dur_set rotChan_blend_assoc fs hdur m

/-- The backward scan only looks at the channel values, so it agrees on two
lists whose channel values agree pointwise. -/
lemma findPrevC_congr {V : Type} (ch : Chan V) (gs gs' : List TeaFrame) (t : ℕ)
    (h : ∀ m, ch.get (gs.getD m dfltTeaFrame) = ch.get (gs'.getD m dfltTeaFrame)) :
    findPrevC ch gs t = findPrevC ch gs' t := by
  induction t with
  | zero => rfl
  | succ t ih =>
      rw [findPrevC]
      conv_rhs => rw [findPrevC]
      rw [h t, ih]

/-- The forward scan agrees on two lists of the same length whose channel
values agree pointwise. -/
lemma findNextC_congr {V : Type} (ch : Chan V) (gs gs' : List TeaFrame)
    (hlen : gs.length = gs'.length)
    (h : ∀ m, ch.get (gs.getD m dfltTeaFrame) = ch.get (gs'.getD m dfltTeaFrame))
    (s : ℕ) :
    findNextC ch gs s = findNextC ch gs' s := by
  have H : ∀ (n s : ℕ), gs.length - s ≤ n → findNextC ch gs s = findNextC ch gs' s := by
    intro n
    induction n with
    | zero =>
        intro s hs
        have hge : ¬ s < gs.length := by omega
        have hge2 : ¬ s < gs'.length := by omega
        conv_lhs => rw [findNextC]
        conv_rhs => rw [findNextC]
        rw [if_neg hge, if_neg hge2]
    | succ n ih =>
        intro s hs
        by_cases hlt : s < gs.length
        · have hlt2 : s < gs'.length := by omega
          conv_lhs => rw [findNextC]
          conv_rhs => rw [findNextC]
          rw [if_pos hlt, if_pos hlt2, h s]
          by_cases hsome : (ch.get (gs'.getD s dfltTeaFrame)).isSome
          · rw [if_pos hsome, if_pos hsome]
          · rw [if_neg hsome, if_neg hsome, ih (s + 1) (by omega)]
        · have hlt2 : ¬ s < gs'.length := by omega
          conv_lhs => rw [findNextC]
          conv_rhs => rw [findNextC]
          rw [if_neg hlt, if_neg hlt2]
  exact H gs.length s (by omega)

/-- C3: for a decoded clip (all per-keyframe durations are strictly
positive, which decode guarantees), each channel of each keyframe `i` that
omits it is handled independently: when the scans over the clip find a
nearest prior carrier `k` and a nearest following carrier `j`, the decoder
fills frame `i` with `value(j)*r1 + value(k)*r2` where
`r1 = durationSum(k..i) / (durationSum(k..i)+durationSum(i..j))` and
`r2 = 1 - r1` (the asymmetric pairing: `j`'s value is weighted by the
k-to-i span), rotations blended componentwise; when a carrier is missing on
either side the channel remains unset — and this holds even though the
source mutates the frame list in place while scanning it. -/
theorem tea_interpolation_c3 (frames : List TeaFrame) (i : ℕ)
    (hdur : ∀ f ∈ frames, 0 < f.duration) :
    ((frames.getD i dfltTeaFrame).translation = none →
      ∀ k j, findPrevC transChan frames i = some k →
        findNextC transChan frames (i + 1) = some j →
        ((interpolateMissingTransforms frames).getD i dfltTeaFrame).translation
          = some (transChan.blend
              (timeBetween frames k i
                / (timeBetween frames k i + timeBetween frames i j))
              (1 - timeBetween frames k i
                / (timeBetween frames k i + timeBetween frames i j))
              ((frames.getD j dfltTeaFrame).translation.getD transChan.dflt)
              ((frames.getD k dfltTeaFrame).translation.getD transChan.dflt)))
    ∧ ((frames.getD i dfltTeaFrame).translation = none →
        (findPrevC transChan frames i = none
          ∨ findNextC transChan frames (i + 1) = none) →
        ((interpolateMissingTransforms frames).getD i dfltTeaFrame).translation = none)
    ∧ ((frames.getD i dfltTeaFrame).rotation = none →
      ∀ k j, findPrevC rotChan frames i = some k →
        findNextC rotChan frames (i + 1) = some j →
        ((interpolateMissingTransforms frames).getD i dfltTeaFrame).rotation
          = some (rotChan.blend
              (timeBetween frames k i
                / (timeBetween frames k i + timeBetween frames i j))
              (1 - timeBetween frames k i
                / (timeBetween frames k i + timeBetween frames i j))
              ((frames.getD j dfltTeaFrame).rotation.getD rotChan.dflt)
              ((frames.getD k dfltTeaFrame).rotation.getD rotChan.dflt)))
    ∧ ((frames.getD i dfltTeaFrame).rotation = none →
        (findPrevC rotChan frames i = none
          ∨ findNextC rotChan frames (i + 1) = none) →
        ((interpolateMissingTransforms frames).getD i dfltTeaFrame).rotation
          = none) := by
  have hdur2 : ∀ f ∈ interpPass transChan frames, 0 < f.duration :=
    interpPass_durations transChan transChan_get_set transChan_dur_set
      transChan_blend_assoc frames hdur
  have hlen2 : (interpPass transChan frames).length = frames.length :=
    interpPass_length transChan transChan_get_set transChan_dur_set
      transChan_blend_assoc frames hdur
  have hgets : ∀ m, rotChan.get ((interpPass transChan frames).getD m dfltTeaFrame)
      = rotChan.get (frames.getD m dfltTeaFrame) :=
    fun m => transPass_rotation frames hdur m
  have hTB2 : ∀ a b, timeBetween (interpPass transChan frames) a b
      = timeBetween frames a b :=
    fun a b => timeBetween_congr (interpPass transChan frames) frames a b
      (fun m => transPass_duration frames hdur m)
  refine ⟨?_, ?_, ?_, ?_⟩
  · intro hnone k j hk hj
    obtain ⟨hk1, hk2, hk3⟩ := findPrevC_some_spec transChan frames i k hk
    obtain ⟨hj1, hj2, hj3, hj4⟩ := findNextC_some_spec transChan frames (i + 1) j hj
    have hilen : i < frames.length := by omega
    have hSpos : 0 < timeBetween frames k i + timeBetween frames i j := by
      have h1 := timeBetween_pos frames k i hdur hk1 (by omega)
      have h2 := timeBetween_pos frames i j hdur (by omega) (by omega)
      linarith
    have hsum : timeBetween frames k i
          / (timeBetween frames k i + timeBetween frames i j)
        + timeBetween frames i j
          / (timeBetween frames k i + timeBetween frames i j) = 1 := by
      rw [div_add_div_same, div_self (ne_of_gt hSpos)]
    have hr2 : timeBetween frames i j
          / (timeBetween frames k i + timeBetween frames i j)
        = 1 - timeBetween frames k i
          / (timeBetween frames k i + timeBetween frames i j) := by
      linarith
    unfold interpolateMissingTransforms
    rw [rotPass_translation (interpPass transChan frames) hdur2 i,
      interpPass_getD transChan transChan_get_set transChan_dur_set
        transChan_blend_assoc frames hdur i, if_pos hilen,
      intendedFrame_of_scans transChan frames i k j hnone hk hj,
      transChan_set_translation, hr2]
    rfl
  · intro hnone hfail
    unfold interpolateMissingTransforms
    rw [rotPass_translation (interpPass transChan frames) hdur2 i,
      interpPass_getD transChan transChan_get_set transChan_dur_set
        transChan_blend_assoc frames hdur i]
    by_cases hilen : i < frames.length
    · rw [if_pos hilen]
      rcases hfail with hf | hf
      · rw [intendedFrame_of_prev_none transChan frames i hnone hf]
        exact hnone
      · cases hp : findPrevC transChan frames i with
        | none =>
            rw [intendedFrame_of_prev_none transChan frames i hnone hp]
            exact hnone
        | some k =>
            rw [intendedFrame_of_next_none transChan frames i k hnone hp hf]
            exact hnone
    · rw [if_neg hilen]
      exact hnone
  · intro hnone k j hk hj
    obtain ⟨hk1, hk2, hk3⟩ := findPrevC_some_spec rotChan frames i k hk
    obtain ⟨hj1, hj2, hj3, hj4⟩ := findNextC_some_spec rotChan frames (i + 1) j hj
    have hilen : i < frames.length := by omega
    have hSpos : 0 < timeBetween frames k i + timeBetween frames i j := by
      have h1 := timeBetween_pos frames k i hdur hk1 (by omega)
      have h2 := timeBetween_pos frames i j hdur (by omega) (by omega)
      linarith
    have hsum : timeBetween frames k i
          / (timeBetween frames k i + timeBetween frames i j)
        + timeBetween frames i j
          / (timeBetween frames k i + timeBetween frames i j) = 1 := by
      rw [div_add_div_same, div_self (ne_of_gt hSpos)]
    have hr2 : timeBetween frames i j
          / (timeBetween frames k i + timeBetween frames i j)
        = 1 - timeBetween frames k i
          / (timeBetween frames k i + timeBetween frames i j) := by
      linarith
    have hnone2 : rotChan.get ((interpPass transChan frames).getD i dfltTeaFrame)
        = none := by
      rw [hgets i]
      exact hnone
    have hk2' : findPrevC rotChan (interpPass transChan frames) i = some k := by
      rw [findPrevC_congr rotChan (interpPass transChan frames) frames i hgets]
      exact hk
    have hj2' : findNextC rotChan (interpPass transChan frames) (i + 1) = some j := by
      rw [findNextC_congr rotChan (interpPass transChan frames) frames hlen2
        hgets (i + 1)]
      exact hj
    unfold interpolateMissingTransforms
    rw [interpPass_getD rotChan rotChan_get_set rotChan_dur_set rotChan_blend_assoc
        (interpPass transChan frames) hdur2 i,
      if_pos (by rw [hlen2]; exact hilen),
      intendedFrame_of_scans rotChan (interpPass transChan frames) i k j
        hnone2 hk2' hj2',
      rotChan_set_rotation, hTB2 k i, hTB2 i j, hgets j, hgets k, hr2]
    rfl
  · intro hnone hfail
    have hnone2 : rotChan.get ((interpPass transChan frames).getD i dfltTeaFrame)
        = none := by
      rw [hgets i]
      exact hnone
    unfold interpolateMissingTransforms
    rw [interpPass_getD rotChan rotChan_get_set rotChan_dur_set rotChan_blend_assoc
      (interpPass transChan frames) hdur2 i]
    by_cases hilen : i < (interpPass transChan frames).length
    · rw [if_pos hilen]
      rcases hfail with hf | hf
      · have hp2 : findPrevC rotChan (interpPass transChan frames) i = none := by
          rw [findPrevC_congr rotChan (interpPass transChan frames) frames i hgets]
          exact hf
        rw [intendedFrame_of_prev_none rotChan (interpPass transChan frames) i
            hnone2 hp2,
          transPass_rotation frames hdur i]
        exact hnone
      · cases hp : findPrevC rotChan (interpPass transChan frames) i with
        | none =>
            rw [intendedFrame_of_prev_none rotChan (interpPass transChan frames) i
                hnone2 hp,
              transPass_rotation frames hdur i]
            exact hnone
        | some k =>
            have hn2 : findNextC rotChan (interpPass transChan frames) (i + 1)
                = none := by
              rw [findNextC_congr rotChan (interpPass transChan frames) frames hlen2
                hgets (i + 1)]
              exact hf
            rw [intendedFrame_of_next_none rotChan (interpPass transChan frames) i k
                hnone2 hp hn2,
              transPass_rotation frames hdur i]
            exact hnone
    · rw [if_neg hilen, transPass_rotation frames hdur i]
      exact hnone

/-- Concrete three-frame clip for the C3 witness: the middle frame misses
both channels, the outer frames carry them; durations 1 and 2 give the
interpolation weight r1 = 1/3. -/
def c3Frames : List TeaFrame :=
  [{ dfltTeaFrame with
      duration := 1
      translation := some ⟨0, 0, 0⟩
      rotation := some ⟨1, 0, 0, 0⟩ },
   { dfltTeaFrame with duration := 2 },
   { dfltTeaFrame with
      duration := 1
      translation := some ⟨6, 3, 9⟩
      rotation := some ⟨0, 4, 0, 0⟩ }]

/-- Closed witness for C3: on the concrete clip the middle frame receives
translation (6,3,9)*(1/3) + (0,0,0)*(2/3) = (2,1,3) and the componentwise
quaternion blend (2/3, 4/3, 0, 0). -/
theorem tea_interpolation_c3_witness :
    ((interpolateMissingTransforms c3Frames).getD 1 dfltTeaFrame).translation
        = some ⟨2, 1, 3⟩
      ∧ ((interpolateMissingTransforms c3Frames).getD 1 dfltTeaFrame).rotation
        = some ⟨2 / 3, 4 / 3, 0, 0⟩ := by
  have h := tea_interpolation_c3 c3Frames 1 (by norm_num [c3Frames, dfltTeaFrame])
  constructor
  · rw [h.1 rfl 0 2 rfl (by rw [findNextC]; rfl)]
    norm_num [c3Frames, dfltTeaFrame, timeBetween, transChan, List.range']
  · rw [h.2.2.1 rfl 0 2 rfl (by rw [findNextC]; rfl)]
    norm_num [c3Frames, dfltTeaFrame, timeBetween, rotChan, List.range']

/-- The byte value of the Python literal written with an escaped backslash
at dataTea.py lines 516 and 518: four characters (backslash, x, 0, 0)
rather than a single NUL byte. -/
def infoFill : List ℕ := [92, 120, 48, 48]

/-- Embeds Python `bytes.ljust(width, fill)`: CPython validates that the
fill argument is exactly one byte before padding and raises a TypeError
otherwise. -/
def bytesLjust (s : List ℕ) (width : ℕ) (fill : List ℕ) :
    Except String (List ℕ) :=
  if fill.length = 1 then
    Except.ok (if width ≤ s.length then s
      else s ++ List.replicate (width - s.length) (fill.getD 0 0))
  else Except.error "the fill character must be exactly one byte"

/-- Embeds assignment to a ctypes `c_char * size` field: a value longer
than the field raises ValueError, a shorter one is zero-padded. -/
def setCCharField (size : ℕ) (value : List ℕ) : Except String (List ℕ) :=
  if value.length ≤ size then
    Except.ok (value ++ List.replicate (size - value.length) 0)
  else Except.error "byte string too long"

/-- Embeds the `info_frame` assignment of `_write_keyframe` for version
2015 (dataTea.py lines 513-518): a non-empty info string is truncated to
255 bytes and left-justified to 256 with the source's escaped four-byte
literal as fill; an empty one is replaced by that literal repeated 256
times (1024 bytes) and assigned to the 256-byte `c_char` field. -/
def writeInfoFrame2015 (info_frame : List ℕ) : Except String (List ℕ) :=
  if info_frame ≠ [] then
    match bytesLjust (info_frame.take 255) 256 infoFill with
    | Except.ok v => setCCharField 256 v
    | Except.error e => Except.error e
  else
    setCCharField 256 ((List.range 256).flatMap (fun _ => infoFill))

/-- One step of the keyframe loop of `TeaSerializer.write` at version 2015
(dataTea.py lines 476-482 and 510-526), reduced to the construction of the
`info_frame` field, which every 2015 keyframe write performs; an earlier
exception aborts the loop. -/
def writeTeaStep (acc : Except String (List (List ℕ))) (f : TeaFrame) :
    Except String (List (List ℕ)) :=
  match acc with
  | Except.error e => Except.error e
  | Except.ok l =>
      match writeInfoFrame2015 f.info_frame with
      | Except.ok v => Except.ok (l ++ [v])
      | Except.error e => Except.error e

/-- Embeds `TeaSerializer.write` at the default version 2015 (dataTea.py
lines 431-485): an empty clip is rejected, otherwise every keyframe is
serialized in order. -/
def writeTea2015 (frames : List TeaFrame) : Except String (List (List ℕ)) :=
  if frames = [] then Except.error "No frames to write"
  else frames.foldl writeTeaStep (Except.ok [])

set_option maxRecDepth 8192 in
lemma writeInfoFrame2015_error (info : List ℕ) :
    ∃ e, writeInfoFrame2015 info = Except.error e := by
  unfold writeInfoFrame2015
  by_cases h : info = []
  · rw [if_neg (by simp [h])]
    exact ⟨"byte string too long", rfl⟩
  · rw [if_pos h]
    have hfill : bytesLjust (info.take 255) 256 infoFill
        = Except.error "the fill character must be exactly one byte" := by
      unfold bytesLjust
      rw [if_neg (by simp [infoFill])]
    rw [hfill]
    exact ⟨"the fill character must be exactly one byte", rfl⟩

lemma writeTeaStep_error (e : String) (f : TeaFrame) :
    writeTeaStep (Except.error e) f = Except.error e := rfl

lemma foldl_writeTeaStep_error (rest : List TeaFrame) (e : String) :
    rest.foldl writeTeaStep (Except.error e) = Except.error e := by
  induction rest with
  | nil => rfl
  | cons f rest ih =>
      rw [List.foldl_cons, writeTeaStep_error]
      exact ih

set_option maxRecDepth 8192 in
/-- C7 (code bug): the round-trip claim fails because encoding never
succeeds at the default version 2015.  The escaped byte-string literal at
dataTea.py lines 516/518 denotes four characters, so the empty-info branch
assigns 1024 bytes to the 256-byte `info_frame` field (a ValueError) and
the non-empty branch pads with a four-byte fill (a TypeError from ljust);
hence `write` raises on the first keyframe of every clip, decode(encode(x))
is unobtainable, and in particular it fails on a clip holding one default
frame. -/
theorem tea_roundtrip_c7 :
    (∀ frames : List TeaFrame, ∃ e, writeTea2015 frames = Except.error e)
      ∧ writeTea2015 [dfltTeaFrame] = Except.error "byte string too long"
      ∧ writeInfoFrame2015 [65]
        = Except.error "the fill character must be exactly one byte" := by
  refine ⟨?_, ?_, ?_⟩
  · intro frames
    cases frames with
    | nil => exact ⟨"No frames to write", rfl⟩
    | cons f rest =>
        obtain ⟨e, he⟩ := writeInfoFrame2015_error f.info_frame
        refine ⟨e, ?_⟩
        unfold writeTea2015
        rw [if_neg (by simp), List.foldl_cons]
        have h1 : writeTeaStep (Except.ok []) f = Except.error e := by
          unfold writeTeaStep
          rw [he]
        rw [h1]
        exact foldl_writeTeaStep_error rest e
  · rfl
  · rfl

/-- Little-endian two's-complement 32-bit integer decoded at byte offset
`pos`; the enclosing struct's bounds check is done by the caller, as
ctypes `from_buffer_copy` checks the whole struct size at once. -/
def i32At (data : List ℕ) (pos : ℕ) : ℤ :=
  if data.getD pos 0 + 256 * data.getD (pos + 1) 0 + 65536 * data.getD (pos + 2) 0
      + 16777216 * data.getD (pos + 3) 0 < 2147483648 then
    ((data.getD pos 0 + 256 * data.getD (pos + 1) 0 + 65536 * data.getD (pos + 2) 0
      + 16777216 * data.getD (pos + 3) 0 : ℕ) : ℤ)
  else
    ((data.getD pos 0 + 256 * data.getD (pos + 1) 0 + 65536 * data.getD (pos + 2) 0
      + 16777216 * data.getD (pos + 3) 0 : ℕ) : ℤ) - 4294967296

/-- Little-endian two's-complement 16-bit integer decoded at byte offset
`pos`. -/
def i16At (data : List ℕ) (pos : ℕ) : ℤ :=
  if data.getD pos 0 + 256 * data.getD (pos + 1) 0 < 32768 then
    ((data.getD pos 0 + 256 * data.getD (pos + 1) 0 : ℕ) : ℤ)
  else
    ((data.getD pos 0 + 256 * data.getD (pos + 1) 0 : ℕ) : ℤ) - 65536

/-- State of the sequential cell-grid read of `read_fts`: the flat list of
decoded cells in z-major loop order (regrouped into rows at the end), the
per-cell anchor index lists, and the current byte position. -/
structure CellReadState where
  cellsFlat : List (Option (List (List ℕ)))
  anchorsFlat : List (List ℤ)
  pos : ℕ
  deriving DecidableEq, Repr

/-- The anchor-index part of one cell-grid iteration (dataFts.py lines
246-253): a positive `nbianchors` (the 32-bit count at cell-header offset
4, i.e. `s.pos + 4`) copies that many 32-bit anchor indices, a
non-positive one stores the empty list; `cell` and `pos2` are the decoded
polygon part and the position after it. -/
def readCellAnchors (data : List ℕ) (s : CellReadState)
    (cell : Option (List (List ℕ))) (pos2 : ℕ) : Except String CellReadState :=
  if 0 < i32At data (s.pos + 4) then
    if pos2 + 4 * (i32At data (s.pos + 4)).toNat ≤ data.length then
      Except.ok ⟨s.cellsFlat ++ [cell],
        s.anchorsFlat ++ [(List.range (i32At data (s.pos + 4)).toNat).map
          (fun k => i32At data (pos2 + 4 * k))],
        pos2 + 4 * (i32At data (s.pos + 4)).toNat⟩
    else Except.error "Buffer size too small"
  else Except.ok ⟨s.cellsFlat ++ [cell], s.anchorsFlat ++ [[]], pos2⟩

/-- Embeds one iteration of the cell-grid loop of `read_fts` (dataFts.py
lines 227-253): an 8-byte FAST_SCENE_INFO read, then `nbpoly <= 0` stores
None for the cell while a positive count copies that many 172-byte
FAST_EERIEPOLY records, then the anchor-index part; a `from_buffer_copy`
reaching past the end of the buffer raises ValueError, which propagates
and aborts the whole decode. -/
def readCellStep (data : List ℕ) (st : Except String CellReadState) :
    Except String CellReadState :=
  match st with
  | Except.error e => Except.error e
  | Except.ok s =>
      if s.pos + 8 ≤ data.length then
        if i32At data s.pos ≤ 0 then
          readCellAnchors data s none (s.pos + 8)
        else if s.pos + 8 + 172 * (i32At data s.pos).toNat ≤ data.length then
          readCellAnchors data s
            (some ((List.range (i32At data s.pos).toNat).map
              (fun k => (data.drop (s.pos + 8 + 172 * k)).take 172)))
            (s.pos + 8 + 172 * (i32At data s.pos).toNat)
        else Except.error "Buffer size too small"
      else Except.error "Buffer size too small"

/-- Embeds one iteration of the anchor loop of `read_fts` (dataFts.py
lines 255-269), tracking the byte position: a 24-byte FAST_ANCHOR_DATA
read followed, when the 16-bit `nb_linked` at struct offset 20 is
positive, by that many 32-bit linked indices. -/
def readAnchorStep (data : List ℕ) (st : Except String ℕ) : Except String ℕ :=
  match st with
  | Except.error e => Except.error e
  | Except.ok pos =>
      if pos + 24 ≤ data.length then
        if 0 < i16At data (pos + 20) then
          if pos + 24 + 4 * (i16At data (pos + 20)).toNat ≤ data.length then
            Except.ok (pos + 24 + 4 * (i16At data (pos + 20)).toNat)
          else Except.error "Buffer size too small"
        else Except.ok (pos + 24)
      else Except.error "Buffer size too small"

/-- Embeds one iteration of the room loop of `read_fts` (dataFts.py lines
279-314): a 32-byte EERIE_SAVE_ROOM_DATA read giving `nb_portals` and
`nb_polys`, then (only when positive) that many 32-bit portal indices and
that many 8-byte FAST_EP_DATA polygon references; the room's two counts
are accumulated. -/
def readRoomStep (data : List ℕ) (st : Except String (List (ℤ × ℤ) × ℕ)) :
    Except String (List (ℤ × ℤ) × ℕ) :=
  match st with
  | Except.error e => Except.error e
  | Except.ok (rooms, pos) =>
      if pos + 32 ≤ data.length then
        match (if 0 < i32At data pos then
            (if pos + 32 + 4 * (i32At data pos).toNat ≤ data.length then
              Except.ok (pos + 32 + 4 * (i32At data pos).toNat)
            else Except.error "Buffer size too small")
          else Except.ok (pos + 32)) with
        | Except.error e => Except.error e
        | Except.ok pos2 =>
            if 0 < i32At data (pos + 4) then
              if pos2 + 8 * (i32At data (pos + 4)).toNat ≤ data.length then
                Except.ok (rooms ++ [(i32At data pos, i32At data (pos + 4))],
                  pos2 + 8 * (i32At data (pos + 4)).toNat)
              else Except.error "Buffer size too small"
            else Except.ok (rooms ++ [(i32At data pos, i32At data (pos + 4))], pos2)
      else Except.error "Buffer size too small"

/-- The record `read_fts` returns, reduced to the fields the verified
claims read: header counts, the cell grid, the per-cell anchor lists, the
per-room counts and the final byte position. -/
structure FtsRecord where
  sizex : ℤ
  sizez : ℤ
  nbRooms : ℤ
  cells : List (List (Option (List (List ℕ))))
  cellAnchors : List (List (List ℤ))
  roomData : List (ℤ × ℤ)
  endPos : ℕ
  deriving DecidableEq, Repr

/-- Embeds `FtsSerializer.read_fts` (dataFts.py lines 192-338) at the byte
level.  The 56-byte FAST_SCENE_HEADER is read first (sizex at offset 4,
sizez at 8, nb_textures at 12, nb_anchors at 20, nb_portals at 48,
nb_rooms at 52); building the texture array type with a negative count
raises ctypes ValueError, otherwise 264 bytes per texture are copied; the
nested z/x cell loops run `sizez * sizex` identical iterations (flattened
here, the flat list regrouped into rows afterwards); then the anchors, the
396-byte portals, `nb_rooms + 1` rooms (the source's off-by-one), and the
`(nb_rooms + 1)^2` 28-byte distance records, each loop's uniform reads
expressed as one bounds check on its total size.  A negative loop count
makes Python's `range` empty, so such sections are silently skipped. -/
def readFts (data : List ℕ) : Except String FtsRecord :=
  if 56 ≤ data.length then
    if i32At data 12 < 0 then Except.error "Array length must be >= 0"
    else if 56 + 264 * (i32At data 12).toNat ≤ data.length then
      match (List.range ((i32At data 8).toNat * (i32At data 4).toNat)).foldl
          (fun st _ => readCellStep data st)
          (Except.ok ⟨[], [], 56 + 264 * (i32At data 12).toNat⟩) with
      | Except.error e => Except.error e
      | Except.ok cs =>
          match (List.range (i32At data 20).toNat).foldl
              (fun st _ => readAnchorStep data st) (Except.ok cs.pos) with
          | Except.error e => Except.error e
          | Except.ok posA =>
              if posA + 396 * (i32At data 48).toNat ≤ data.length then
                match (List.range (i32At data 52 + 1).toNat).foldl
                    (fun st _ => readRoomStep data st)
                    (Except.ok ([], posA + 396 * (i32At data 48).toNat)) with
                | Except.error e => Except.error e
                | Except.ok (rooms, posR) =>
                    if posR + 28 * ((i32At data 52 + 1).toNat
                        * (i32At data 52 + 1).toNat) ≤ data.length then
                      Except.ok ⟨i32At data 4, i32At data 8, i32At data 52,
                        (List.range (i32At data 8).toNat).map (fun z =>
                          (cs.cellsFlat.drop (z * (i32At data 4).toNat)).take
                            (i32At data 4).toNat),
                        (List.range (i32At data 8).toNat).map (fun z =>
                          (cs.anchorsFlat.drop (z * (i32At data 4).toNat)).take
                            (i32At data 4).toNat),
                        rooms,
                        posR + 28 * ((i32At data 52 + 1).toNat
                          * (i32At data 52 + 1).toNat)⟩
                    else Except.error "Buffer size too small"
              else Except.error "Buffer size too small"
    else Except.error "Buffer size too small"
  else Except.error "Buffer size too small"

/-- A 64-byte scene payload: a 56-byte header with sizex = sizez = 1, all
other counts zero except nb_rooms = -1, followed by one 8-byte cell header
with nbpoly = -1 and nbianchors = 0. -/
def c6Data : List ℕ :=
  List.replicate 4 0 ++ [1, 0, 0, 0] ++ [1, 0, 0, 0] ++ List.replicate 40 0
    ++ [255, 255, 255, 255] ++ [255, 255, 255, 255] ++ List.replicate 4 0

set_option maxRecDepth 8192 in
/-- C6 counterexample: a payload whose single cell stores the negative
polygon count -1 (and whose header stores nb_rooms = -1) is decoded
without any error: the whole 64-byte buffer is consumed, the negative
nbpoly cell comes back as None (an empty cell) and the negative room count
silently skips the room sections — the decode does not fail and does
return a (partial) record, contradicting the claimed failure semantics. -/
theorem read_fts_malformed_c6_counterexample :
    i32At c6Data 56 = -1
      ∧ i32At c6Data 52 = -1
      ∧ readFts c6Data = Except.ok ⟨1, 1, -1, [[none]], [[[]]], [], 64⟩ := by
  refine ⟨by decide, by decide, rfl⟩

/-- C6 amended: a non-positive per-cell polygon count is silently treated
as an empty cell — the cell decodes to None, nothing is consumed beyond
the 8-byte cell header, and decoding continues — while a cell header that
would read past the end of the buffer aborts the decode with the ctypes
buffer error. -/
theorem read_fts_malformed_c6_amended (data : List ℕ) (s : CellReadState)
    (hneg : i32At data s.pos ≤ 0) (hanch : i32At data (s.pos + 4) ≤ 0) :
    (s.pos + 8 ≤ data.length →
      readCellStep data (Except.ok s)
        = Except.ok ⟨s.cellsFlat ++ [none], s.anchorsFlat ++ [[]], s.pos + 8⟩)
    ∧ (data.length < s.pos + 8 →
      readCellStep data (Except.ok s) = Except.error "Buffer size too small") := by
  constructor
  · intro hb
    simp only [readCellStep]
    rw [if_pos hb, if_pos hneg]
    unfold readCellAnchors
    rw [if_neg (by omega)]
  · intro hb
    simp only [readCellStep]
    rw [if_neg (by omega)]

/-- Closed witness for the C6 amended theorem on the concrete payload: the
single cell with nbpoly = -1 decodes to None with the position advanced
past the cell header only. -/
theorem read_fts_malformed_c6_amended_witness :
    readCellStep c6Data (Except.ok ⟨[], [], 56⟩)
      = Except.ok ⟨[none], [[]], 64⟩ := by
  have h := read_fts_malformed_c6_amended c6Data ⟨[], [], 56⟩ (by decide) (by decide)
  exact h.1 (by decide)

end ArxSpec
